import Mathlib

/-!
# terraform-provider-bitwarden: transform engine and session lifecycle

A shallow embedding of `bitwarden/bw_helper.go`, `bitwarden/bw.go` and the read path of
`bitwarden/data_source_item.go`, followed by theorems about it.

Modelling conventions.

* A Go `map[string]interface{}` is a function `String → Option Value`: `none` is an absent
  key, `some Value.null` a key holding `nil`.  Go maps are unordered, so two documents are
  the same map exactly when they are the same function.
* Go maps are reference values.  A callee that mutates a child map through a pointer is
  modelled by writing the updated child back at the key (or list position) it came from.
* A function that returns an `error` after mutating its input returns the mutated input
  together with the error, so the state left behind by a failing call can be inspected.
* A descriptor map (`keyConversion`, `mapsToEnclose`) is the list of its entries in the
  order the `range` loop visits them. Go leaves that order open and may change it from
  one loop to the next; the relations `KeysRun` and `EncloseRun` collect the executions
  of `convertKeys` and `encloseMaps` for all orders, `ReadRun` those of
  `dataSourceItemRead`, and the functions of these names are the executions in list
  order.
* The command-line tool and the libraries `encoding/json` and `mapstructure` are not part
  of the repository. The tool is a state machine given as a parameter, the decoders of
  exported structs are parameters, and every command handed to the tool is recorded in a
  trace. The two mutexes of `Client` are left out: calls are modelled one at a time.
* A Go string is a Lean `String`. The only byte-level operation, the search for the first
  opening brace, gives the same cut on bytes and on characters, since that byte never
  occurs inside a multi-byte UTF-8 sequence.
-/

namespace Bitwarden

/-! ## Documents -/

/-- A dynamically typed Go value as produced by `json.Unmarshal` into `interface{}`:
`nil`, `bool`, `float64` (carried, never inspected), `string`, `[]interface{}` and
`map[string]interface{}`. -/
inductive Value where
  | null
  | bool (b : Bool)
  | num (n : Int)
  | str (s : String)
  | list (xs : List Value)
  | map (m : String → Option Value)

/-- A document: `map[string]interface{}`. -/
abbrev Doc := String → Option Value

/-- The empty (or nil) map. -/
def Doc.empty : Doc := fun _ => none

/-- Assignment `m[k] = v`. -/
def Doc.set (d : Doc) (k : String) (v : Value) : Doc :=
  fun k' => if k' = k then some v else d k'

/-- Builtin `delete(m, k)`. -/
def Doc.delete (d : Doc) (k : String) : Doc :=
  fun k' => if k' = k then none else d k'

/-- The key is present in the map (the `ok` of `_, ok := m[k]`). -/
def Doc.Contains (d : Doc) (k : String) : Prop := (d k).isSome = true

instance (d : Doc) (k : String) : Decidable (d.Contains k) := by
  unfold Doc.Contains; infer_instance

/-! ## Descriptors -/

/-- The dynamic type of a descriptor entry, as told apart by the type switches of
`convertKeys` and `encloseMaps`: `string`, `[]map[string]interface{}`,
`map[string]interface{}`, or anything else. -/
inductive Conv where
  | str (s : String)
  | maps (l : List (List (String × Conv)))
  | map (m : List (String × Conv))
  | other

/-- A descriptor map, as the list of its entries in iteration order. -/
abbrev Descriptor := List (String × Conv)

/-! ## Errors -/

/-- The errors built by the program.  An error whose message is assembled from strings
only carries its text; the structural errors of the transform engine, whose text embeds
`%v` renderings of Go values, are kept as tags. `nilStatus` stands for the nil-pointer
panic of `checkCorrectUser` on a nil `*Status`: like an error it ends every caller.
`setItems` is the error of `dataSourceItemRead` around a failed `d.Set`. -/
inductive BwError where
  | text (s : String)
  | convertMismatch1
  | convertMismatch2
  | convertFormat
  | encloseMismatch1
  | encloseMismatch2
  | encloseFormat
  | encloseNonMap
  | cannotUnmarshal (friendlyName : String) (output : String) (cause : BwError)
  | unexpectedListOutput
  | nilStatus
  | setItems (hostError : String)
deriving DecidableEq

/-! ## Key conversion (`bw_helper.go`) -/

/-- Go `convertKey`: if `oldKey` is present, store its value under `newKey` and delete
`oldKey`. -/
def convertKey (input : Doc) (oldKey newKey : String) : Doc :=
  match input oldKey with
  | some v => (input.set newKey v).delete oldKey
  | none => input

/-- The loop `for _, item := range inputChild` shared by `convertKeys` and `encloseMaps`:
every map-shaped item is handed to `f` (which mutates it in place), the first item that
is not map-shaped, or the first error of `f`, ends the loop. -/
def eachItem (f : Doc → Doc × Option BwError) (notMap : BwError) :
    List Value → List Value × Option BwError
  | [] => ([], none)
  | Value.map m :: rest =>
    match f m with
    | (m', some e) => (Value.map m' :: rest, some e)
    | (m', none) =>
      match eachItem f notMap rest with
      | (rest', e) => (Value.map m' :: rest', e)
  | item :: rest => (item :: rest, some notMap)

mutual
/-- The body of the `range *keyConversion` loop of Go `convertKeys` for one entry: the
type switch on the entry's element. -/
def convertElement (input : Doc) (key : String) : Conv → Doc × Option BwError
  | Conv.str value => (convertKey input key value, none)
  | Conv.maps value =>
    match input key with
    | some (Value.list inputChild) =>
      match eachItem (fun itemAsMap => convertKeysEach itemAsMap value)
          BwError.convertMismatch1 inputChild with
      | (items, e) => (input.set key (Value.list items), e)
    | none => (input, none)
    | some Value.null => (input, none)
    | some _ => (input, some BwError.convertMismatch1)
  | Conv.map value =>
    match input key with
    | some (Value.map inputChild) =>
      match convertKeys inputChild value with
      | (child, e) => (input.set key (Value.map child), e)
    | none => (input, none)
    | some Value.null => (input, none)
    | some _ => (input, some BwError.convertMismatch2)
  | Conv.other => (input, some BwError.convertFormat)
termination_by structural element => element
/-- One entry `key, element` of the descriptor map. -/
def convertEntry (input : Doc) : String × Conv → Doc × Option BwError
  | (key, element) => convertElement input key element
termination_by structural entry => entry
/-- Go `convertKeys` for a non-nil `keyConversion`: the entries are processed in
iteration order and the first error returns. -/
def convertKeys (input : Doc) : List (String × Conv) → Doc × Option BwError
  | [] => (input, none)
  | entry :: rest =>
    match convertEntry input entry with
    | (input', some e) => (input', some e)
    | (input', none) => convertKeys input' rest
termination_by structural keyConversion => keyConversion
/-- The loop `for _, keyConversionListItem := range value` applied to one list item. -/
def convertKeysEach (itemAsMap : Doc) : List (List (String × Conv)) → Doc × Option BwError
  | [] => (itemAsMap, none)
  | keyConversionListItem :: rest =>
    match convertKeys itemAsMap keyConversionListItem with
    | (m, some e) => (m, some e)
    | (m, none) => convertKeysEach m rest
termination_by structural value => value
end

/-- Go `convertKeys` with its pointer argument: a nil `keyConversion` returns at once. -/
def convertKeysPtr (input : Doc) : Option Descriptor → Doc × Option BwError
  | none => (input, none)
  | some keyConversion => convertKeys input keyConversion

/-! ## Enclosure (`bw_helper.go`) -/

/-- Go `encloseMap`: a map-shaped value at `mapKey` is replaced by the one-element list
holding it; an absent or nil value is left alone; anything else is an error. -/
def encloseMap (input : Doc) (mapKey : String) : Doc × Option BwError :=
  match input mapKey with
  | some (Value.map inputChild) => (input.set mapKey (Value.list [Value.map inputChild]), none)
  | none => (input, none)
  | some Value.null => (input, none)
  | some _ => (input, some BwError.encloseNonMap)

mutual
/-- The body of the `range *mapsToEnclose` loop of Go `encloseMaps` for one entry. -/
def encloseElement (input : Doc) (key : String) : Conv → Doc × Option BwError
  | Conv.str _ => encloseMap input key
  | Conv.maps value =>
    match input key with
    | some (Value.list inputChild) =>
      match eachItem (fun itemAsMap => encloseMapsEach itemAsMap value)
          BwError.encloseMismatch1 inputChild with
      | (items, e) => (input.set key (Value.list items), e)
    | none => (input, none)
    | some Value.null => (input, none)
    | some _ => (input, some BwError.encloseMismatch1)
  | Conv.map value =>
    match input key with
    | some (Value.map inputChild) =>
      match encloseMaps inputChild value with
      | (child, e) => (input.set key (Value.map child), e)
    | none => (input, none)
    | some Value.null => (input, none)
    | some _ => (input, some BwError.encloseMismatch2)
  | Conv.other => (input, some BwError.encloseFormat)
termination_by structural element => element
/-- One entry `key, element` of the enclosure descriptor. -/
def encloseEntry (input : Doc) : String × Conv → Doc × Option BwError
  | (key, element) => encloseElement input key element
termination_by structural entry => entry
/-- Go `encloseMaps` for a non-nil `mapsToEnclose`, entries in iteration order. -/
def encloseMaps (input : Doc) : List (String × Conv) → Doc × Option BwError
  | [] => (input, none)
  | entry :: rest =>
    match encloseEntry input entry with
    | (input', some e) => (input', some e)
    | (input', none) => encloseMaps input' rest
termination_by structural mapsToEnclose => mapsToEnclose
/-- The loop `for _, mapsToEncloseListItem := range value` applied to one list item. -/
def encloseMapsEach (itemAsMap : Doc) : List (List (String × Conv)) → Doc × Option BwError
  | [] => (itemAsMap, none)
  | mapsToEncloseListItem :: rest =>
    match encloseMaps itemAsMap mapsToEncloseListItem with
    | (m, some e) => (m, some e)
    | (m, none) => encloseMapsEach m rest
termination_by structural value => value
end

/-! ## Process runner and response decoder (`bw_helper.go`) -/

/-- An `exec.Cmd` as the tool sees it: binary, arguments, and what the program writes to
the command's standard input (nothing unless the master password is fed). -/
structure Invocation where
  bin : String
  args : List String
  stdin : Option String
deriving DecidableEq

/-- The `error` of `cmd.CombinedOutput()`: an `*exec.ExitError` with its exit code, or any
other error; `text` is what `%s` prints for it. -/
inductive ExecError where
  | exit (code : Int) (text : String)
  | other (text : String)

/-- What `cmd.CombinedOutput()` returns. -/
structure RunResult where
  output : String
  err : Option ExecError

/-- Go `Response`, the envelope of every tool answer. A nil `Data` is the empty map. -/
structure Response where
  Success : Bool
  Message : String
  Data : Doc

/-- Go `SessionData`. All of its fields are unexported. -/
structure SessionData where
  noColor : Bool
  object : String
  title : String
  message : String
  raw : String

set_option linter.dupNamespace false in
/-- Go `Status`. -/
structure Status where
  ServerUrl : String
  LastSync : String
  UserEmail : String
  UserId : String
  Status : String

/-- Go `StatusOuter`; `Template` is a pointer and may be nil. -/
structure StatusOuter where
  Object : String
  Template : Option Status

/-- Go `Client` without its two mutexes: calls are modelled one at a time. -/
structure Client where
  userId : String
  clientId : String
  clientSecret : String
  Email : String
  MasterPassword : String
  SessionKey : String
  Server : String
  BitwardenCLIBinary : String

/-- Everything outside the repository that the client calls: the command-line tool, as a
state machine answering one invocation at a time, and the decoding libraries.
`jsonValid` and `jsonUnmarshal` are `json.Valid` and `json.Unmarshal` into a
`map[string]interface{}`; `decodeResponse` and `decodeStatusOuter` are
`mapstructure.Decode` into a `Response` and a `StatusOuter`. -/
structure Env (σ : Type) where
  run : σ → Invocation → RunResult × σ
  jsonValid : String → Bool
  jsonUnmarshal : String → Except String Doc
  decodeResponse : Doc → Except String Response
  decodeStatusOuter : Doc → Except String StatusOuter

/-- The client together with the tool's state and the commands issued so far, oldest
first. -/
structure Session (σ : Type) where
  client : Client
  state : σ
  trace : List Invocation

/-- The call `mapstructure.Decode(sessionData, &login)` into a `SessionData`. Every field of
`SessionData` is unexported, Go reflection cannot set an unexported field, and
mapstructure skips a field it cannot set without reporting an error: the struct keeps its
zero value whatever the input map holds. -/
def decodeSessionData (_sessionData : Doc) : Except String SessionData :=
  Except.ok { noColor := false, object := "", title := "", message := "", raw := "" }

/-- Go `UnmarshalConvertKeys`. -/
def UnmarshalConvertKeys {σ : Type} (env : Env σ) (data : String)
    (keyConversion : Option Descriptor) : Except BwError Doc :=
  if env.jsonValid data = false then
    Except.error (BwError.text ("invalid json:\n" ++ data))
  else
    match env.jsonUnmarshal data with
    | Except.error err => Except.error (BwError.text err)
    | Except.ok generic =>
      match convertKeysPtr generic keyConversion with
      | (_, some err) => Except.error err
      | (converted, none) => Except.ok converted

/-- Go `Client.convertToResponse`. -/
def convertToResponse {σ : Type} (env : Env σ) (responseJSONBytes friendlyName : String)
    (keyConversion : Option Descriptor) : Except BwError Response :=
  match UnmarshalConvertKeys env responseJSONBytes keyConversion with
  | Except.error err =>
    Except.error (BwError.cannotUnmarshal friendlyName responseJSONBytes err)
  | Except.ok data =>
    match env.decodeResponse data with
    | Except.error err => Except.error (BwError.text err)
    | Except.ok response => Except.ok response

/-- Go `Client.convertToDataIfSuccessful`. -/
def convertToDataIfSuccessful {σ : Type} (env : Env σ)
    (responseJSONBytes friendlyName : String) (keyConversion : Option Descriptor) :
    Except BwError Doc :=
  match convertToResponse env responseJSONBytes friendlyName keyConversion with
  | Except.error err => Except.error err
  | Except.ok response =>
    if response.Success then Except.ok response.Data
    else Except.error (BwError.text ("unsuccessful " ++ friendlyName ++ ": " ++ response.Message))

/-- The text `%s` prints for the error of `CombinedOutput`. -/
def ExecError.text : ExecError → String
  | ExecError.exit _ text => text
  | ExecError.other text => text

/-- The test `!ok || exitError.ExitCode() != ignoreCode` of `runOnly`. -/
def ExecError.fatal (ignoreCode : Int) : ExecError → Bool
  | ExecError.exit code _ => code != ignoreCode
  | ExecError.other _ => true

/-- Go `Client.runOnly`: run the command, record it, and fail unless it exited cleanly or
with `ignoreCode`. -/
def runOnly {σ : Type} (env : Env σ) (s : Session σ) (cmd : Invocation)
    (friendlyName : String) (ignoreCode : Int) : Except BwError String × Session σ :=
  match env.run s.state cmd with
  | (result, state) =>
    let s1 : Session σ := { s with state := state, trace := s.trace ++ [cmd] }
    match result.err with
    | some err =>
      if err.fatal ignoreCode then
        (Except.error (BwError.text
          ("cannot " ++ friendlyName ++ ": " ++ result.output ++ "\nexit code: " ++ err.text)), s1)
      else (Except.ok result.output, s1)
    | none => (Except.ok result.output, s1)

/-- Position of the first opening brace: `strings.Index(outputString, "\x7b")`, with
`none` for the `-1` of an absent brace. -/
def indexBrace : List Char → Option Nat
  | [] => none
  | c :: cs => if c = '\x7b' then some 0 else (indexBrace cs).map (· + 1)

/-- The trimming of `runAndGivePassword` (from `outputString := string(*output)` on):
when the first opening brace is at a positive index the text before it is cut off, and
the result must start with an opening brace. -/
def trimPrompt (output : String) : Except BwError String :=
  let outputString : String :=
    match indexBrace output.data with
    | some (jsonStartIndex + 1) => String.mk (output.data.drop (jsonStartIndex + 1))
    | _ => output
  if outputString.data.head? = some '\x7b' then Except.ok outputString
  else Except.error (BwError.text
    ("failed to trim interactive prompts from output:\n" ++ output ++ "\n-->\n" ++ outputString))

/-- Go `Client.runAndGivePassword`: the master password and a newline are written to the
command's standard input, the command is run with `runOnly`, and prompts are trimmed.
`cmd.StdinPipe()` does not fail on a command that has not been started. -/
def runAndGivePassword {σ : Type} (env : Env σ) (s : Session σ) (cmd : Invocation)
    (friendlyName : String) : Except BwError String × Session σ :=
  match runOnly env s { cmd with stdin := some (s.client.MasterPassword ++ "\n") }
      friendlyName 0 with
  | (Except.error err, s1) => (Except.error err, s1)
  | (Except.ok output, s1) => (trimPrompt output, s1)

/-- Go `Client.runExpectingSuccess`. -/
def runExpectingSuccess {σ : Type} (env : Env σ) (s : Session σ) (cmd : Invocation)
    (friendlyName : String) (keyConversion : Option Descriptor) :
    Except BwError Doc × Session σ :=
  match runOnly env s cmd friendlyName 0 with
  | (Except.error err, s1) => (Except.error err, s1)
  | (Except.ok responseJSONBytes, s1) =>
    (convertToDataIfSuccessful env responseJSONBytes friendlyName keyConversion, s1)

/-- Go `Client.runGivingPasswordExpectingSuccess`. -/
def runGivingPasswordExpectingSuccess {σ : Type} (env : Env σ) (s : Session σ)
    (cmd : Invocation) (friendlyName : String) (keyConversion : Option Descriptor) :
    Except BwError Doc × Session σ :=
  match runAndGivePassword env s cmd friendlyName with
  | (Except.error err, s1) => (Except.error err, s1)
  | (Except.ok responseJSONBytes, s1) =>
    (convertToDataIfSuccessful env responseJSONBytes friendlyName keyConversion, s1)

/-- Go `Client.runAndCheckSucceeded`. -/
def runAndCheckSucceeded {σ : Type} (env : Env σ) (s : Session σ) (cmd : Invocation)
    (friendlyName : String) (ignoreCode : Int) : Except BwError Bool × Session σ :=
  match runOnly env s cmd friendlyName ignoreCode with
  | (Except.error err, s1) => (Except.error err, s1)
  | (Except.ok responseJSONBytes, s1) =>
    match convertToResponse env responseJSONBytes friendlyName none with
    | Except.error err => (Except.error err, s1)
    | Except.ok response => (Except.ok response.Success, s1)

/-! ## Commands (`bw.go`) -/

/-- Command `login --check --response`. -/
def loginCheckCmd (c : Client) : Invocation :=
  { bin := c.BitwardenCLIBinary, args := ["login", "--check", "--response"], stdin := none }

/-- Command `unlock --check --response --session <SessionKey>`. -/
def unlockCheckCmd (c : Client) : Invocation :=
  { bin := c.BitwardenCLIBinary,
    args := ["unlock", "--check", "--response", "--session", c.SessionKey], stdin := none }

/-- Command `login --response <Email>`, before the password is attached. -/
def loginCmd (c : Client) : Invocation :=
  { bin := c.BitwardenCLIBinary, args := ["login", "--response", c.Email], stdin := none }

/-- Command `logout --response`. -/
def logoutCmd (c : Client) : Invocation :=
  { bin := c.BitwardenCLIBinary, args := ["logout", "--response"], stdin := none }

/-- Command `sync --response`, before the password is attached. -/
def syncCmd (c : Client) : Invocation :=
  { bin := c.BitwardenCLIBinary, args := ["sync", "--response"], stdin := none }

/-- Command `list items --response --session <SessionKey>`, before the password is
attached. -/
def listItemsCmd (c : Client) : Invocation :=
  { bin := c.BitwardenCLIBinary,
    args := ["list", "items", "--response", "--session", c.SessionKey], stdin := none }

/-- Command `unlock --response`, before the password is attached. -/
def unlockCmd (c : Client) : Invocation :=
  { bin := c.BitwardenCLIBinary, args := ["unlock", "--response"], stdin := none }

/-- Command `status --response --session <SessionKey>`. -/
def statusCmd (c : Client) : Invocation :=
  { bin := c.BitwardenCLIBinary,
    args := ["status", "--response", "--session", c.SessionKey], stdin := none }

/-- The invocation is a `login` command (not `login --check`). -/
def Invocation.isLogin (cmd : Invocation) : Bool :=
  match cmd.args with
  | ["login", "--response", _] => true
  | _ => false

/-- The invocation is a `logout` command. -/
def Invocation.isLogout (cmd : Invocation) : Bool :=
  match cmd.args with
  | ["logout", "--response"] => true
  | _ => false

/-- The invocation is an `unlock` command (not `unlock --check`). -/
def Invocation.isUnlock (cmd : Invocation) : Bool :=
  match cmd.args with
  | ["unlock", "--response"] => true
  | _ => false

/-- The invocation is a `list items` command. -/
def Invocation.isListItems (cmd : Invocation) : Bool :=
  match cmd.args with
  | ["list", "items", "--response", "--session", _] => true
  | _ => false

/-- The conversion descriptor literal of `bwListItems`, entries in source order. -/
def listItemsConversion : Descriptor :=
  [("data", Conv.map
    [("data", Conv.maps
      [[("organizationId", Conv.str "organization_id"),
        ("folderId", Conv.str "folder_id"),
        ("card", Conv.map
          [("cardholderName", Conv.str "cardholder_name"),
           ("expMonth", Conv.str "exp_month"),
           ("expYear", Conv.str "exp_year")]),
        ("identity", Conv.map
          [("firstName", Conv.str "first_name"),
           ("middleName", Conv.str "middle_name"),
           ("lastName", Conv.str "last_name"),
           ("postalCode", Conv.str "postal_code"),
           ("passportNumber", Conv.str "passport_number"),
           ("licenseNumber", Conv.str "license_number")]),
        ("login", Conv.map
          [("passwordRevisionDate", Conv.str "password_revision_date")]),
        ("secureNote", Conv.str "secure_note"),
        ("collectionIds", Conv.str "collection_ids"),
        ("revisionDate", Conv.str "revision_date")]])])]

/-- Go `Client.bwLoginCheck`. -/
def bwLoginCheck {σ : Type} (env : Env σ) (s : Session σ) : Except BwError Bool × Session σ :=
  runAndCheckSucceeded env s (loginCheckCmd s.client) "login --check" 1

/-- Go `Client.bwUnlockCheck`. -/
def bwUnlockCheck {σ : Type} (env : Env σ) (s : Session σ) : Except BwError Bool × Session σ :=
  runAndCheckSucceeded env s (unlockCheckCmd s.client) "unlock --check" 1

/-- Go `Client.bwLogout`. -/
def bwLogout {σ : Type} (env : Env σ) (s : Session σ) : Option BwError × Session σ :=
  match bwLoginCheck env s with
  | (Except.error err, s1) => (some err, s1)
  | (Except.ok false, s1) => (none, s1)
  | (Except.ok true, s1) =>
    match runAndCheckSucceeded env s1 (logoutCmd s1.client) "logout" 1 with
    | (Except.error err, s2) => (some err, s2)
    | (Except.ok _, s2) => (none, s2)

/-- Go `Client.ensureLoggedOut`. -/
def ensureLoggedOut {σ : Type} (env : Env σ) (s : Session σ) : Option BwError × Session σ :=
  match bwLoginCheck env s with
  | (Except.error err, s1) => (some err, s1)
  | (Except.ok false, s1) => (none, s1)
  | (Except.ok true, s1) => bwLogout env s1

/-- Go `Client.bwLogin`. -/
def bwLogin {σ : Type} (env : Env σ) (s : Session σ) : Option BwError × Session σ :=
  match ensureLoggedOut env s with
  | (some err, s1) => (some err, s1)
  | (none, s1) =>
    match runGivingPasswordExpectingSuccess env s1 (loginCmd s1.client) "login" none with
    | (Except.error err, s2) => (some err, s2)
    | (Except.ok sessionData, s2) =>
      match decodeSessionData sessionData with
      | Except.error err => (some (BwError.text err), s2)
      | Except.ok login => (none, { s2 with client := { s2.client with SessionKey := login.raw } })

/-- Go `Client.bwUnlock`. -/
def bwUnlock {σ : Type} (env : Env σ) (s : Session σ) : Option BwError × Session σ :=
  match runGivingPasswordExpectingSuccess env s (unlockCmd s.client) "unlock" none with
  | (Except.error err, s1) => (some err, s1)
  | (Except.ok sessionData, s1) =>
    match decodeSessionData sessionData with
    | Except.error err => (some (BwError.text err), s1)
    | Except.ok unlock => (none, { s1 with client := { s1.client with SessionKey := unlock.raw } })

/-- Go `Client.bwStatus`; the result is the `Template` pointer, possibly nil. -/
def bwStatus {σ : Type} (env : Env σ) (s : Session σ) :
    Except BwError (Option Status) × Session σ :=
  match runExpectingSuccess env s (statusCmd s.client) "status" none with
  | (Except.error err, s1) => (Except.error err, s1)
  | (Except.ok statusData, s1) =>
    match env.decodeStatusOuter statusData with
    | Except.error err => (Except.error (BwError.text err), s1)
    | Except.ok statusOuter => (Except.ok statusOuter.Template, s1)

/-- Go `Client.bwListItems`: the `list items` command with the password fed and the
conversion descriptor applied, then the type assertion of `data` to a list. -/
def bwListItems {σ : Type} (env : Env σ) (s : Session σ) :
    Except BwError (List Value) × Session σ :=
  match runGivingPasswordExpectingSuccess env s (listItemsCmd s.client) "list items"
      (some listItemsConversion) with
  | (Except.error err, s1) => (Except.error err, s1)
  | (Except.ok data, s1) =>
    match data "data" with
    | some (Value.list list) => (Except.ok list, s1)
    | _ => (Except.error BwError.unexpectedListOutput, s1)

/-! ## Session lifecycle (`bw_helper.go`) -/

/-- Go `strings.TrimPrefix(clientId, "user.")`. -/
def trimUserDot (clientId : String) : String :=
  match clientId.data with
  | 'u' :: 's' :: 'e' :: 'r' :: '.' :: rest => String.mk rest
  | _ => clientId

/-- Go `Client.checkCorrectUser`. The Go result `(false, err)` is `Except.error err`. -/
def checkCorrectUser {σ : Type} (env : Env σ) (s : Session σ) :
    Except BwError Bool × Session σ :=
  match bwStatus env s with
  | (Except.error err, s1) => (Except.error err, s1)
  | (Except.ok none, s1) => (Except.error BwError.nilStatus, s1)
  | (Except.ok (some status), s1) =>
    let c := s1.client
    if status.ServerUrl ≠ c.Server then
      (Except.error (BwError.text ("mismatching serverUrl (" ++ status.ServerUrl ++
        ") and server_url (" ++ c.Server ++ ")")), s1)
    else if c.Email ≠ "" ∧ status.UserEmail ≠ c.Email then
      (Except.error (BwError.text ("mismatching userEmail (" ++ status.UserEmail ++
        ") and email (" ++ c.Email ++ ")")), s1)
    else if c.clientId ≠ "" ∧ status.UserId ≠ trimUserDot c.clientId then
      (Except.error (BwError.text ("mismatching userId (" ++ status.UserId ++
        ") and client_id (" ++ c.clientId ++
        "). client_id should be userId with a 'user.' prefix")), s1)
    else if c.userId ≠ "" ∧ status.UserId ≠ c.userId then
      (Except.error (BwError.text ("mismatching userId (" ++ status.UserId ++
        ") and user_id (" ++ c.userId ++ ")")), s1)
    else
      (Except.ok true, { s1 with client := { c with
        Email := if c.Email = "" then status.UserEmail else c.Email,
        clientId := if c.clientId = "" then "user." ++ status.UserId else c.clientId,
        userId := if c.userId = "" then status.UserId else c.userId } })

/-- Go `Client.ensureLoggedInAsCorrectUser`. -/
def ensureLoggedInAsCorrectUser {σ : Type} (env : Env σ) (s : Session σ) :
    Option BwError × Session σ :=
  let loginAndCheck (s0 : Session σ) : Option BwError × Session σ :=
    match bwLogin env s0 with
    | (some err, s1) => (some err, s1)
    | (none, s1) =>
      match checkCorrectUser env s1 with
      | (Except.error err, s2) => (some err, s2)
      | (Except.ok _, s2) => (none, s2)
  match bwLoginCheck env s with
  | (Except.error err, s1) => (some err, s1)
  | (Except.ok false, s1) => loginAndCheck s1
  | (Except.ok true, s1) =>
    match checkCorrectUser env s1 with
    | (Except.error err, s2) => (some err, s2)
    | (Except.ok true, s2) => (none, s2)
    | (Except.ok false, s2) =>
      match ensureLoggedOut env s2 with
      | (some err, s3) => (some err, s3)
      | (none, s3) => loginAndCheck s3

/-- Go `Client.ensureUnlocked`. -/
def ensureUnlocked {σ : Type} (env : Env σ) (s : Session σ) : Option BwError × Session σ :=
  match ensureLoggedInAsCorrectUser env s with
  | (some err, s1) => (some err, s1)
  | (none, s1) =>
    match bwUnlockCheck env s1 with
    | (Except.error err, s2) => (some err, s2)
    | (Except.ok true, s2) => (none, s2)
    | (Except.ok false, s2) => bwUnlock env s2

/-- Go `Client.bwSync`. -/
def bwSync {σ : Type} (env : Env σ) (s : Session σ) : Option BwError × Session σ :=
  match ensureUnlocked env s with
  | (some err, s1) => (some err, s1)
  | (none, s1) =>
    match runGivingPasswordExpectingSuccess env s1 (syncCmd s1.client) "sync" none with
    | (Except.error err, s2) => (some err, s2)
    | (Except.ok _, s2) => (none, s2)

/-! ## Item data source (`data_source_item.go`) -/

/-- The plugin host's `d.Set("items", value)`: the error text it answers with, if any. The
host is outside the repository and given as a parameter. -/
structure Host where
  set : Value → Option String

/-- What a call of `dataSourceItemRead` leaves behind: the returned diagnostics (empty, or
the one error of `diag.FromErr`), the value handed to `d.Set("items", ·)` if that call
was reached, and whether `d.SetId` was called (the id is the clock reading, not modelled). -/
structure ReadOutcome where
  diags : Option BwError
  handed : Option Value
  idSet : Bool

/-- The enclosure descriptor literal of `dataSourceItemRead`, entries in source order. -/
def itemsEnclosure : Descriptor :=
  [("real", Conv.maps
    [[("card", Conv.str ""),
      ("identity", Conv.str ""),
      ("login", Conv.str ""),
      ("secure_note", Conv.str "")]])]

/-- The read `(*enclosure)["real"]` of a map holding `interface{}` values: nil when the key
is absent. -/
def Doc.index (d : Doc) (k : String) : Value :=
  match d k with
  | some v => v
  | none => Value.null

/-- Go `dataSourceItemRead`. The error returned by `encloseMaps` is assigned to `err` and
not read again: the next statement declares a new `err` for the result of `d.Set`. -/
def dataSourceItemRead {σ : Type} (env : Env σ) (host : Host) (s : Session σ) :
    ReadOutcome × Session σ :=
  match bwListItems env s with
  | (Except.error err, s1) => ({ diags := some err, handed := none, idSet := false }, s1)
  | (Except.ok data, s1) =>
    match encloseMaps (Doc.empty.set "real" (Value.list data)) itemsEnclosure with
    | (enclosure, _) =>
      match host.set (enclosure.index "real") with
      | some err =>
        ({ diags := some (BwError.setItems err), handed := some (enclosure.index "real"),
           idSet := false }, s1)
      | none =>
        ({ diags := none, handed := some (enclosure.index "real"), idSet := true }, s1)

/-! ## Iteration order of descriptor maps -/

mutual
/-- A possible execution of the loop body of `convertKeys` for the entry `key, element` on
`input`, ending with the given document and error, when every nested `range` over a
descriptor map may visit its entries in any order. -/
inductive ElementRun : Doc → String → Conv → Doc → Option BwError → Prop
  | str (input : Doc) (key value : String) :
      ElementRun input key (Conv.str value) (convertKey input key value) none
  | mapsList {input : Doc} {key : String} {value : List (List (String × Conv))}
      {inputChild items : List Value} {e : Option BwError} :
      input key = some (Value.list inputChild) → ItemsRun value inputChild items e →
      ElementRun input key (Conv.maps value) (input.set key (Value.list items)) e
  | mapsAbsent {input : Doc} {key : String} (value : List (List (String × Conv))) :
      input key = none → ElementRun input key (Conv.maps value) input none
  | mapsNull {input : Doc} {key : String} (value : List (List (String × Conv))) :
      input key = some Value.null → ElementRun input key (Conv.maps value) input none
  | mapsOther {input : Doc} {key : String} (value : List (List (String × Conv))) {v : Value} :
      input key = some v → (∀ xs, v ≠ Value.list xs) → v ≠ Value.null →
      ElementRun input key (Conv.maps value) input (some BwError.convertMismatch1)
  | mapMap {input : Doc} {key : String} {value : List (String × Conv)}
      {inputChild child : Doc} {e : Option BwError} :
      input key = some (Value.map inputChild) → KeysRun inputChild value child e →
      ElementRun input key (Conv.map value) (input.set key (Value.map child)) e
  | mapAbsent {input : Doc} {key : String} (value : List (String × Conv)) :
      input key = none → ElementRun input key (Conv.map value) input none
  | mapNull {input : Doc} {key : String} (value : List (String × Conv)) :
      input key = some Value.null → ElementRun input key (Conv.map value) input none
  | mapOther {input : Doc} {key : String} (value : List (String × Conv)) {v : Value} :
      input key = some v → (∀ m, v ≠ Value.map m) → v ≠ Value.null →
      ElementRun input key (Conv.map value) input (some BwError.convertMismatch2)
  | other (input : Doc) (key : String) :
      ElementRun input key Conv.other input (some BwError.convertFormat)
/-- The entries are processed in the order of the list; the first error returns. -/
inductive OrderedRun : Doc → List (String × Conv) → Doc → Option BwError → Prop
  | done (input : Doc) : OrderedRun input [] input none
  | fail {input output : Doc} {key : String} {element : Conv} {err : BwError}
      (rest : List (String × Conv)) :
      ElementRun input key element output (some err) →
      OrderedRun input ((key, element) :: rest) output (some err)
  | step {input mid output : Doc} {key : String} {element : Conv}
      {rest : List (String × Conv)} {e : Option BwError} :
      ElementRun input key element mid none → OrderedRun mid rest output e →
      OrderedRun input ((key, element) :: rest) output e
/-- A possible execution of `convertKeys(input, keyConversion)`: the `range` over the
descriptor map visits the entries in some order. -/
inductive KeysRun : Doc → List (String × Conv) → Doc → Option BwError → Prop
  | any {input output : Doc} {keyConversion order : List (String × Conv)}
      {e : Option BwError} :
      order.Perm keyConversion → OrderedRun input order output e →
      KeysRun input keyConversion output e
/-- The loop over the descriptor slice `value` for one list item: slice order, each
descriptor map ranged in some order. -/
inductive EachRun : Doc → List (List (String × Conv)) → Doc → Option BwError → Prop
  | done (itemAsMap : Doc) : EachRun itemAsMap [] itemAsMap none
  | fail {itemAsMap output : Doc} {keyConversionListItem : List (String × Conv)}
      {err : BwError} (rest : List (List (String × Conv))) :
      KeysRun itemAsMap keyConversionListItem output (some err) →
      EachRun itemAsMap (keyConversionListItem :: rest) output (some err)
  | step {itemAsMap mid output : Doc} {keyConversionListItem : List (String × Conv)}
      {rest : List (List (String × Conv))} {e : Option BwError} :
      KeysRun itemAsMap keyConversionListItem mid none → EachRun mid rest output e →
      EachRun itemAsMap (keyConversionListItem :: rest) output e
/-- The loop over the items of the document's list, each item with its own executions. -/
inductive ItemsRun : List (List (String × Conv)) → List Value → List Value →
    Option BwError → Prop
  | done (value : List (List (String × Conv))) : ItemsRun value [] [] none
  | notMap (value : List (List (String × Conv))) {item : Value} (rest : List Value) :
      (∀ m, item ≠ Value.map m) →
      ItemsRun value (item :: rest) (item :: rest) (some BwError.convertMismatch1)
  | fail {value : List (List (String × Conv))} {m m1 : Doc} {err : BwError}
      (rest : List Value) :
      EachRun m value m1 (some err) →
      ItemsRun value (Value.map m :: rest) (Value.map m1 :: rest) (some err)
  | step {value : List (List (String × Conv))} {m m1 : Doc} {rest rest1 : List Value}
      {e : Option BwError} :
      EachRun m value m1 none → ItemsRun value rest rest1 e →
      ItemsRun value (Value.map m :: rest) (Value.map m1 :: rest1) e
end

mutual
/-- A possible execution of the loop body of `encloseMaps` for the entry `key, element` on
`input`, when every nested `range` over a descriptor map may visit its entries in any
order. -/
inductive EncloseElementRun : Doc → String → Conv → Doc → Option BwError → Prop
  | str {input output : Doc} {key : String} (marker : String) {e : Option BwError} :
      encloseMap input key = (output, e) →
      EncloseElementRun input key (Conv.str marker) output e
  | mapsList {input : Doc} {key : String} {value : List (List (String × Conv))}
      {inputChild items : List Value} {e : Option BwError} :
      input key = some (Value.list inputChild) → EncloseItemsRun value inputChild items e →
      EncloseElementRun input key (Conv.maps value) (input.set key (Value.list items)) e
  | mapsAbsent {input : Doc} {key : String} (value : List (List (String × Conv))) :
      input key = none → EncloseElementRun input key (Conv.maps value) input none
  | mapsNull {input : Doc} {key : String} (value : List (List (String × Conv))) :
      input key = some Value.null → EncloseElementRun input key (Conv.maps value) input none
  | mapsOther {input : Doc} {key : String} (value : List (List (String × Conv))) {v : Value} :
      input key = some v → (∀ xs, v ≠ Value.list xs) → v ≠ Value.null →
      EncloseElementRun input key (Conv.maps value) input (some BwError.encloseMismatch1)
  | mapMap {input : Doc} {key : String} {value : List (String × Conv)}
      {inputChild child : Doc} {e : Option BwError} :
      input key = some (Value.map inputChild) → EncloseRun inputChild value child e →
      EncloseElementRun input key (Conv.map value) (input.set key (Value.map child)) e
  | mapAbsent {input : Doc} {key : String} (value : List (String × Conv)) :
      input key = none → EncloseElementRun input key (Conv.map value) input none
  | mapNull {input : Doc} {key : String} (value : List (String × Conv)) :
      input key = some Value.null → EncloseElementRun input key (Conv.map value) input none
  | mapOther {input : Doc} {key : String} (value : List (String × Conv)) {v : Value} :
      input key = some v → (∀ m, v ≠ Value.map m) → v ≠ Value.null →
      EncloseElementRun input key (Conv.map value) input (some BwError.encloseMismatch2)
  | other (input : Doc) (key : String) :
      EncloseElementRun input key Conv.other input (some BwError.encloseFormat)
/-- The entries are processed in the order of the list; the first error returns. -/
inductive EncloseOrderedRun : Doc → List (String × Conv) → Doc → Option BwError → Prop
  | done (input : Doc) : EncloseOrderedRun input [] input none
  | fail {input output : Doc} {key : String} {element : Conv} {err : BwError}
      (rest : List (String × Conv)) :
      EncloseElementRun input key element output (some err) →
      EncloseOrderedRun input ((key, element) :: rest) output (some err)
  | step {input mid output : Doc} {key : String} {element : Conv}
      {rest : List (String × Conv)} {e : Option BwError} :
      EncloseElementRun input key element mid none → EncloseOrderedRun mid rest output e →
      EncloseOrderedRun input ((key, element) :: rest) output e
/-- A possible execution of `encloseMaps(input, mapsToEnclose)`: the `range` over the
descriptor map visits the entries in some order. -/
inductive EncloseRun : Doc → List (String × Conv) → Doc → Option BwError → Prop
  | any {input output : Doc} {mapsToEnclose order : List (String × Conv)}
      {e : Option BwError} :
      order.Perm mapsToEnclose → EncloseOrderedRun input order output e →
      EncloseRun input mapsToEnclose output e
/-- The loop over the descriptor slice `value` for one list item. -/
inductive EncloseEachRun : Doc → List (List (String × Conv)) → Doc → Option BwError → Prop
  | done (itemAsMap : Doc) : EncloseEachRun itemAsMap [] itemAsMap none
  | fail {itemAsMap output : Doc} {mapsToEncloseListItem : List (String × Conv)}
      {err : BwError} (rest : List (List (String × Conv))) :
      EncloseRun itemAsMap mapsToEncloseListItem output (some err) →
      EncloseEachRun itemAsMap (mapsToEncloseListItem :: rest) output (some err)
  | step {itemAsMap mid output : Doc} {mapsToEncloseListItem : List (String × Conv)}
      {rest : List (List (String × Conv))} {e : Option BwError} :
      EncloseRun itemAsMap mapsToEncloseListItem mid none → EncloseEachRun mid rest output e →
      EncloseEachRun itemAsMap (mapsToEncloseListItem :: rest) output e
/-- The loop over the items of the document's list. -/
inductive EncloseItemsRun : List (List (String × Conv)) → List Value → List Value →
    Option BwError → Prop
  | done (value : List (List (String × Conv))) : EncloseItemsRun value [] [] none
  | notMap (value : List (List (String × Conv))) {item : Value} (rest : List Value) :
      (∀ m, item ≠ Value.map m) →
      EncloseItemsRun value (item :: rest) (item :: rest) (some BwError.encloseMismatch1)
  | fail {value : List (List (String × Conv))} {m m1 : Doc} {err : BwError}
      (rest : List Value) :
      EncloseEachRun m value m1 (some err) →
      EncloseItemsRun value (Value.map m :: rest) (Value.map m1 :: rest) (some err)
  | step {value : List (List (String × Conv))} {m m1 : Doc} {rest rest1 : List Value}
      {e : Option BwError} :
      EncloseEachRun m value m1 none → EncloseItemsRun value rest rest1 e →
      EncloseItemsRun value (Value.map m :: rest) (Value.map m1 :: rest1) e
end

/-- A possible execution of `dataSourceItemRead`: as the function of that name, with the
enclosure done by any execution of `encloseMaps`. The listing is taken from the function
`bwListItems`; when it succeeds its result is the same for every order of its key
conversion. -/
inductive ReadRun {σ : Type} (env : Env σ) (host : Host) (s : Session σ) :
    ReadOutcome × Session σ → Prop
  | listFailed {err : BwError} {s1 : Session σ} :
      bwListItems env s = (Except.error err, s1) →
      ReadRun env host s ({ diags := some err, handed := none, idSet := false }, s1)
  | setFailed {data : List Value} {s1 : Session σ} {enclosure : Doc} {e : Option BwError}
      {err : String} :
      bwListItems env s = (Except.ok data, s1) →
      EncloseRun (Doc.empty.set "real" (Value.list data)) itemsEnclosure enclosure e →
      host.set (enclosure.index "real") = some err →
      ReadRun env host s
        ({ diags := some (BwError.setItems err), handed := some (enclosure.index "real"),
           idSet := false }, s1)
  | done {data : List Value} {s1 : Session σ} {enclosure : Doc} {e : Option BwError} :
      bwListItems env s = (Except.ok data, s1) →
      EncloseRun (Doc.empty.set "real" (Value.list data)) itemsEnclosure enclosure e →
      host.set (enclosure.index "real") = none →
      ReadRun env host s
        ({ diags := none, handed := some (enclosure.index "real"), idSet := true }, s1)

/-- The keys of the document an entry reads or writes: the source key, and for a rename
leaf also the target. -/
def touched : String × Conv → List String
  | (key, Conv.str value) => [key, value]
  | (key, _) => [key]

/-- No two entries of the descriptor map touch a common key. -/
def Independent (keyConversion : List (String × Conv)) : Prop :=
  keyConversion.Pairwise (fun a b => ∀ k ∈ touched a, k ∉ touched b)

/-- The step `f` reads and writes the document only at the keys in `keys`. -/
def LocalTo (keys : List String) (f : Doc → Doc × Option BwError) : Prop :=
  (∀ D D' : Doc, (∀ k ∈ keys, D k = D' k) →
    (f D).2 = (f D').2 ∧ ∀ k ∈ keys, (f D).1 k = (f D').1 k) ∧
  (∀ (D : Doc) (k : String), k ∉ keys → (f D).1 k = D k)

/-- Two outcomes agree: both fail or both succeed, and on success the results are equal. -/
def Agree {α : Type} (r r' : α × Option BwError) : Prop :=
  r.2.isSome = r'.2.isSome ∧ (r.2 = none → r.1 = r'.1)

/-- Every execution of the entry agrees with the function `convertEntry`. -/
def ElementDet (entry : String × Conv) : Prop :=
  ∀ (D out : Doc) (e : Option BwError),
    ElementRun D entry.1 entry.2 out e → Agree (out, e) (convertEntry D entry)

/-- Every execution of the descriptor map agrees with the function `convertKeys`. -/
def KeysDet (keyConversion : List (String × Conv)) : Prop :=
  ∀ (D out : Doc) (e : Option BwError),
    KeysRun D keyConversion out e → Agree (out, e) (convertKeys D keyConversion)

/-! ## Example documents -/

/-- The document with the single entry `b ↦ "v"`. -/
def docOnlyB : Doc := Doc.empty.set "b" (Value.str "v")

/-- The document with the single entry `a ↦ "v"`. -/
def docOnlyA : Doc := Doc.empty.set "a" (Value.str "v")

/-- A card item: `card ↦ (cardholderName ↦ "Ann")`, `id ↦ "1"`. -/
def docCard : Doc :=
  (Doc.empty.set "card" (Value.map (Doc.empty.set "cardholderName" (Value.str "Ann")))).set
    "id" (Value.str "1")

/-! ## An example tool -/

/-- The envelope `success: false, message: m`, without data. -/
def envelopeFailure (m : String) : Doc :=
  (Doc.empty.set "success" (Value.bool false)).set "message" (Value.str m)

/-- Answer with `success` true and no data. -/
def outTrue : String := "\x7b\"success\":true\x7d"

/-- Answer with `success` false and a message. -/
def outFalse : String := "\x7b\"success\":false,\"message\":\"no\"\x7d"

/-- The failure envelope with the message `invalid master password`. -/
def outInvalid : String :=
  "\x7b\"success\":false,\"message\":\"invalid master password\"\x7d"

/-- Answer of `unlock` and `login`: the session token `tok` in `data.raw`. -/
def outToken : String := "\x7b\"success\":true,\"data\":\x7b\"raw\":\"tok\"\x7d\x7d"

/-- Answer of `status`: the account `ann@example.org` on `https://vault.example`. -/
def outStatus : String :=
  "\x7b\"success\":true,\"data\":\x7b\"object\":\"template\",\"template\":\x7b" ++
  "\"serverUrl\":\"https://vault.example\",\"lastSync\":\"\"," ++
  "\"userEmail\":\"ann@example.org\",\"userId\":\"u1\",\"status\":\"locked\"\x7d\x7d\x7d"

/-- Answer of `list items`: an empty list. -/
def outItems : String :=
  "\x7b\"success\":true,\"data\":\x7b\"object\":\"list\",\"data\":[]\x7d\x7d"

/-- State of the example tool: whether an account is logged in, and the token handed out
by the most recent successful `unlock`. -/
structure ToolState where
  loggedIn : Bool
  token : Option String
deriving DecidableEq

/-- The example tool. `login --check` reports the login state, `unlock --check --session t`
reports unlocked exactly when `t` is the token of the most recent successful `unlock`
(a negative check exits with code 1), `unlock` hands out the token `tok`, `login` and
`logout` switch the login state, `status` reports the server `https://vault.example`. -/
def exampleRun (st : ToolState) (cmd : Invocation) : RunResult × ToolState :=
  match cmd.args with
  | ["login", "--check", "--response"] =>
    if st.loggedIn then ({ output := outTrue, err := none }, st)
    else ({ output := outFalse, err := some (ExecError.exit 1 "exit status 1") }, st)
  | ["unlock", "--check", "--response", "--session", t] =>
    if st.token = some t then ({ output := outTrue, err := none }, st)
    else ({ output := outFalse, err := some (ExecError.exit 1 "exit status 1") }, st)
  | ["unlock", "--response"] =>
    ({ output := outToken, err := none }, { st with token := some "tok" })
  | ["login", "--response", _] =>
    ({ output := outToken, err := none }, { st with loggedIn := true })
  | ["logout", "--response"] =>
    ({ output := outTrue, err := none }, { loggedIn := false, token := none })
  | ["status", "--response", "--session", _] => ({ output := outStatus, err := none }, st)
  | ["list", "items", "--response", "--session", _] =>
    ({ output := outItems, err := none }, st)
  | _ => ({ output := "", err := some (ExecError.other "unknown command") }, st)

/-- The documents that `encoding/json` decodes the example tool's answers to. -/
def exampleUnmarshal (data : String) : Except String Doc :=
  if data = outTrue then
    Except.ok (Doc.empty.set "success" (Value.bool true))
  else if data = outInvalid then
    Except.ok (envelopeFailure "invalid master password")
  else if data = outFalse then
    Except.ok ((Doc.empty.set "success" (Value.bool false)).set "message" (Value.str "no"))
  else if data = outToken then
    Except.ok ((Doc.empty.set "success" (Value.bool true)).set "data"
      (Value.map (Doc.empty.set "raw" (Value.str "tok"))))
  else if data = outStatus then
    Except.ok ((Doc.empty.set "success" (Value.bool true)).set "data"
      (Value.map ((Doc.empty.set "object" (Value.str "template")).set "template"
        (Value.map (((((Doc.empty.set "serverUrl" (Value.str "https://vault.example")).set
          "lastSync" (Value.str "")).set "userEmail" (Value.str "ann@example.org")).set
          "userId" (Value.str "u1")).set "status" (Value.str "locked"))))))
  else if data = outItems then
    Except.ok ((Doc.empty.set "success" (Value.bool true)).set "data"
      (Value.map ((Doc.empty.set "object" (Value.str "list")).set "data" (Value.list []))))
  else Except.error "unexpected end of JSON input"

/-- A string field read from a document, empty when absent. -/
def fieldStr (d : Doc) (k : String) : String :=
  match d k with
  | some (Value.str v) => v
  | _ => ""

/-- What `mapstructure.Decode` into a `Response` gives on documents whose keys are
`success`, `message` and `data`. -/
def exampleDecodeResponse (d : Doc) : Except String Response :=
  Except.ok
    { Success := match d "success" with
        | some (Value.bool b) => b
        | _ => false,
      Message := fieldStr d "message",
      Data := match d "data" with
        | some (Value.map m) => m
        | _ => Doc.empty }

/-- What `mapstructure.Decode` into a `StatusOuter` gives on documents whose keys are
`object` and `template`. -/
def exampleDecodeStatusOuter (d : Doc) : Except String StatusOuter :=
  Except.ok
    { Object := fieldStr d "object",
      Template := match d "template" with
        | some (Value.map t) =>
          some { ServerUrl := fieldStr t "serverUrl", LastSync := fieldStr t "lastSync",
                 UserEmail := fieldStr t "userEmail", UserId := fieldStr t "userId",
                 Status := fieldStr t "status" }
        | _ => none }

/-- The status the example tool reports. -/
def exampleStatus : Status :=
  { ServerUrl := "https://vault.example", LastSync := "", UserEmail := "ann@example.org",
    UserId := "u1", Status := "locked" }

/-- The example tool with the decoders for its answers. -/
def exampleEnv : Env ToolState :=
  { run := exampleRun,
    jsonValid := fun data => (exampleUnmarshal data).toBool,
    jsonUnmarshal := exampleUnmarshal,
    decodeResponse := exampleDecodeResponse,
    decodeStatusOuter := exampleDecodeStatusOuter }

/-- A tool that answers every command with the failure envelope `outInvalid` and exit
status 0, with the decoders of the example tool. -/
def refusingEnv : Env Unit :=
  { run := fun _ _ => ({ output := outInvalid, err := none }, ()),
    jsonValid := fun data => (exampleUnmarshal data).toBool,
    jsonUnmarshal := exampleUnmarshal,
    decodeResponse := exampleDecodeResponse,
    decodeStatusOuter := exampleDecodeStatusOuter }

/-- The failure envelope with the message `bad "pw"`, as JSON text: the quotes of the
message are escaped. -/
def outBadPw : String :=
  "\x7b\"success\":false,\"message\":\"bad \\\"pw\\\"\"\x7d"

/-- A tool that answers every command with the failure envelope `outBadPw` and exit
status 1, with the decoder of that text and the response decoder of the example tool. -/
def exitOneEnv : Env Unit :=
  { run := fun _ _ =>
      ({ output := outBadPw, err := some (ExecError.exit 1 "exit status 1") }, ()),
    jsonValid := fun data => data = outBadPw,
    jsonUnmarshal := fun data =>
      if data = outBadPw then Except.ok (envelopeFailure "bad \"pw\"")
      else Except.error "unexpected end of JSON input",
    decodeResponse := exampleDecodeResponse,
    decodeStatusOuter := exampleDecodeStatusOuter }

/-- A client configured for the given server, with no session key yet. -/
def exampleClient (server : String) : Client :=
  { userId := "", clientId := "", clientSecret := "", Email := "ann@example.org",
    MasterPassword := "pw", SessionKey := "", Server := server, BitwardenCLIBinary := "bw" }

/-- A fresh session of `exampleClient` against the example tool in the given login
state, nothing unlocked yet and no command issued. -/
def exampleSession (server : String) (loggedIn : Bool) : Session ToolState :=
  { client := exampleClient server, state := { loggedIn := loggedIn, token := none },
    trace := [] }

/-- A session whose client is configured for `bob@example.org` on the example tool's
server, against the example tool logged in as `ann@example.org`. -/
def otherEmailSession : Session ToolState :=
  { client := { exampleClient "https://vault.example" with Email := "bob@example.org" },
    state := { loggedIn := true, token := none },
    trace := [] }

/-- Answer of `list items` with one item: an id, and a secure note that is a list (here
the empty list) instead of an object. -/
def outNoteItems : String :=
  "\x7b\"success\":true,\"data\":\x7b\"object\":\"list\",\"data\":[\x7b" ++
  "\"id\":\"1\",\"secureNote\":[]\x7d]\x7d\x7d"

/-- The item of `outNoteItems` as decoded by `encoding/json`. -/
def noteItem : Doc :=
  (Doc.empty.set "id" (Value.str "1")).set "secureNote" (Value.list [])

/-- The item of `outNoteItems` after the key conversion of `bwListItems`: `secureNote` has
become `secure_note`. -/
def listedNote : Doc := convertKey noteItem "secureNote" "secure_note"

/-- A tool that answers every command with `outNoteItems` and exit status 0, with the
decoder of that text and the response decoder of the example tool. -/
def noteItemsEnv : Env Unit :=
  { run := fun _ _ => ({ output := outNoteItems, err := none }, ()),
    jsonValid := fun data => data = outNoteItems,
    jsonUnmarshal := fun data =>
      if data = outNoteItems then
        Except.ok ((Doc.empty.set "success" (Value.bool true)).set "data"
          (Value.map ((Doc.empty.set "object" (Value.str "list")).set "data"
            (Value.list [Value.map noteItem]))))
      else Except.error "unexpected end of JSON input",
    decodeResponse := exampleDecodeResponse,
    decodeStatusOuter := exampleDecodeStatusOuter }

/-- A value fits a field that the schema declares with `Type: schema.TypeList`: it is
absent, nil or a list. -/
def listShaped : Option Value → Bool
  | none => true
  | some Value.null => true
  | some (Value.list _) => true
  | some _ => false

/-- An item fits the four blocks `card`, `identity`, `login` and `secure_note` of the schema
of `dataSourceItem`, each declared with `Type: schema.TypeList`. -/
def itemFitsBlocks : Value → Bool
  | Value.map m =>
    listShaped (m "card") && listShaped (m "identity") && listShaped (m "login") &&
      listShaped (m "secure_note")
  | _ => false

/-- A plugin host whose `d.Set("items", value)` checks what the schema of `dataSourceItem`
declares for the four enclosed blocks: the value is a list of maps in which each of
these blocks is absent, nil or a list. A string or a single map at a block is rejected.
The other fields of the schema are not checked. -/
def schemaHost : Host :=
  { set := fun value =>
      match value with
      | Value.list items =>
        if items.all itemFitsBlocks then none else some "items: block is not a list"
      | _ => some "items: not a list" }

/-- The descriptor of one listed item inside `listItemsConversion`. -/
def itemConversion : Descriptor :=
  match listItemsConversion with
  | [(_, Conv.map [(_, Conv.maps [item])])] => item
  | _ => []

/-- A listed item: a card with a holder name, and a folder id. -/
def cardItem : Doc :=
  (Doc.empty.set "card" (Value.map (Doc.empty.set "cardholderName" (Value.str "Ann")))).set
    "folderId" (Value.str "f1")

/-- The `data` object of a `list items` answer holding `cardItem`. -/
def cardListing : Doc :=
  (Doc.empty.set "object" (Value.str "list")).set "data" (Value.list [Value.map cardItem])

/-- The success envelope of a `list items` answer holding `cardItem`. -/
def cardEnvelope : Doc :=
  (Doc.empty.set "success" (Value.bool true)).set "data" (Value.map cardListing)

/-- A document whose `data` is a list of two map-shaped items. -/
def docTwoItems : Doc :=
  Doc.empty.set "data" (Value.list
    ([Doc.empty.set "folderId" (Value.str "f1"), Doc.empty.set "id" (Value.str "2")].map
      Value.map))

/-- Two descriptors to be applied one after the other to every item. -/
def twoRenames : List Descriptor :=
  [[("folderId", Conv.str "folder_id")], [("folder_id", Conv.str "folder")]]

/-! ## Theorems -/

/-! ### Lemmas on documents -/

theorem Doc.set_same (d : Doc) (k : String) (v : Value) : (d.set k v) k = some v := by
  simp [Doc.set]

theorem Doc.set_other (d : Doc) (k k' : String) (v : Value) (h : k' ≠ k) :
    (d.set k v) k' = d k' := by
  simp [Doc.set, h]

theorem convertKey_absent (d : Doc) (oldKey newKey : String) (h : d oldKey = none) :
    convertKey d oldKey newKey = d := by
  simp [convertKey, h]

/-! ### C1: round trip of `convertKey` -/

/-- C1 as stated fails: with `D` holding only `b`, renaming `a → b` does nothing and
renaming `b → a` then moves the entry, so the round trip does not restore `D` although
`D` does not contain both keys. -/
theorem convertKey_roundtrip_fails :
    ¬ (∀ (D : Doc) (A B : String), ¬ (D.Contains A ∧ D.Contains B) →
        convertKey (convertKey D A B) B A = D) := by
  intro h
  have h1 := h docOnlyB "a" "b" (by decide)
  have h2 := congrFun h1 "a"
  simp [convertKey, docOnlyB, Doc.set, Doc.delete, Doc.empty] at h2

/-- C1 (amended): for every document `D` and keys `A`, `B` such that `D` does not contain
`B`, renaming `A` to `B` and then `B` to `A` yields `D` again. -/
theorem convertKey_roundtrip (D : Doc) (A B : String) (hB : ¬ D.Contains B) :
    convertKey (convertKey D A B) B A = D := by
  have hB' : D B = none := by
    unfold Doc.Contains at hB
    simpa using hB
  funext k
  simp only [convertKey]
  cases hA : D A with
  | none => simp [hB']
  | some v =>
    have hAB : ¬ A = B := by
      intro h
      rw [h, hB'] at hA
      cases hA
    have hBA : ¬ B = A := fun h => hAB h.symm
    simp only [Doc.set, Doc.delete, hBA, if_true, if_false]
    by_cases h1 : k = B
    · simp [h1, hBA, hB']
    · by_cases h2 : k = A
      · simp [h2, hA, hAB]
      · simp [h1, h2]

theorem convertKey_roundtrip_witness :
    ¬ docOnlyA.Contains "b" ∧ convertKey (convertKey docOnlyA "a" "b") "b" "a" = docOnlyA :=
  ⟨by decide, convertKey_roundtrip docOnlyA "a" "b" (by decide)⟩

/-! ### C2, C3: enclosure -/

/-- C2: when `D` maps `K` to a map `m`, `encloseMaps` with the descriptor `{K: marker}`
returns no error, leaves `K` mapped to the one-element list `[m]`, and leaves every other
key as it was. -/
theorem encloseMaps_single (D : Doc) (K marker : String) (m : Doc)
    (hK : D K = some (Value.map m)) :
    (encloseMaps D [(K, Conv.str marker)]).2 = none ∧
    (encloseMaps D [(K, Conv.str marker)]).1 K = some (Value.list [Value.map m]) ∧
    ∀ k, k ≠ K → (encloseMaps D [(K, Conv.str marker)]).1 k = D k := by
  have h : encloseMaps D [(K, Conv.str marker)] =
      (D.set K (Value.list [Value.map m]), none) := by
    simp [encloseMaps, encloseEntry, encloseElement, encloseMap, hK]
  rw [h]
  refine ⟨rfl, Doc.set_same _ _ _, fun k hk => Doc.set_other _ _ _ _ hk⟩

theorem encloseMaps_single_witness :
    docCard "card" = some (Value.map (Doc.empty.set "cardholderName" (Value.str "Ann"))) ∧
    ((encloseMaps docCard [("card", Conv.str "")]).2 = none ∧
    (encloseMaps docCard [("card", Conv.str "")]).1 "card" =
      some (Value.list [Value.map (Doc.empty.set "cardholderName" (Value.str "Ann"))]) ∧
    ∀ k, k ≠ "card" → (encloseMaps docCard [("card", Conv.str "")]).1 k = docCard k) :=
  ⟨rfl, encloseMaps_single docCard "card" "" _ rfl⟩

/-- C3: after one successful `encloseMaps(D, {K})` on a map-valued `K`, a second call with
the same descriptor returns the non-map type error and leaves the document as the first
call left it, `K` still mapping to the one-element list. -/
theorem encloseMaps_twice (D : Doc) (K marker : String) (m : Doc)
    (hK : D K = some (Value.map m)) :
    (encloseMaps D [(K, Conv.str marker)]).2 = none ∧
    encloseMaps (encloseMaps D [(K, Conv.str marker)]).1 [(K, Conv.str marker)] =
      ((encloseMaps D [(K, Conv.str marker)]).1, some BwError.encloseNonMap) ∧
    (encloseMaps D [(K, Conv.str marker)]).1 K = some (Value.list [Value.map m]) := by
  have h : encloseMaps D [(K, Conv.str marker)] =
      (D.set K (Value.list [Value.map m]), none) := by
    simp [encloseMaps, encloseEntry, encloseElement, encloseMap, hK]
  rw [h]
  refine ⟨rfl, ?_, Doc.set_same _ _ _⟩
  simp [encloseMaps, encloseEntry, encloseElement, encloseMap, Doc.set_same]

theorem encloseMaps_twice_witness :
    docCard "card" = some (Value.map (Doc.empty.set "cardholderName" (Value.str "Ann"))) ∧
    ((encloseMaps docCard [("card", Conv.str "")]).2 = none ∧
    encloseMaps (encloseMaps docCard [("card", Conv.str "")]).1 [("card", Conv.str "")] =
      ((encloseMaps docCard [("card", Conv.str "")]).1, some BwError.encloseNonMap) ∧
    (encloseMaps docCard [("card", Conv.str "")]).1 "card" =
      some (Value.list [Value.map (Doc.empty.set "cardholderName" (Value.str "Ann"))])) :=
  ⟨rfl, encloseMaps_twice docCard "card" "" _ rfl⟩

/-! ### C4: renames of absent keys -/

/-- C4: when every entry of the descriptor `R` is a rename leaf and none of its keys occurs
in `D`, `convertKeys(D, R)` returns no error and leaves `D` unchanged. -/
theorem convertKeys_absent (D : Doc) (R : Descriptor)
    (hleaf : ∀ e ∈ R, ∃ newKey, e.2 = Conv.str newKey)
    (habsent : ∀ e ∈ R, ¬ D.Contains e.1) :
    convertKeys D R = (D, none) := by
  induction R with
  | nil => simp [convertKeys]
  | cons e rest ih =>
    obtain ⟨key, element⟩ := e
    obtain ⟨newKey, hnew⟩ := hleaf (key, element) (List.mem_cons_self _ _)
    have hk : D key = none := by
      have := habsent (key, element) (List.mem_cons_self _ _)
      unfold Doc.Contains at this
      simpa using this
    simp only at hnew
    subst hnew
    have ih' := ih (fun e he => hleaf e (List.mem_cons_of_mem _ he))
      (fun e he => habsent e (List.mem_cons_of_mem _ he))
    simp [convertKeys, convertEntry, convertElement, convertKey_absent D key newKey hk, ih']

theorem convertKeys_absent_witness :
    (∀ e ∈ [("firstName", Conv.str "first_name"), ("lastName", Conv.str "last_name")],
      ∃ newKey, e.2 = Conv.str newKey) ∧
    (∀ e ∈ [("firstName", Conv.str "first_name"), ("lastName", Conv.str "last_name")],
      ¬ docCard.Contains e.1) ∧
    convertKeys docCard [("firstName", Conv.str "first_name"), ("lastName", Conv.str "last_name")]
      = (docCard, none) :=
  ⟨by simp, by simp; decide,
    convertKeys_absent docCard _ (by simp) (by simp; decide)⟩

/-! ### C5: prompt stripping -/

theorem indexBrace_append (p rest : List Char) (hp : '\x7b' ∉ p) :
    indexBrace (p ++ '\x7b' :: rest) = some p.length := by
  induction p with
  | nil => simp [indexBrace]
  | cons c p ih =>
    have hc : c ≠ '\x7b' := fun h => hp (by simp [h])
    have hp' : '\x7b' ∉ p := fun h => hp (by simp [h])
    simp [indexBrace, hc, ih hp']

theorem trimPrompt_split (p rest : List Char) (hp : '\x7b' ∉ p) :
    trimPrompt (String.mk (p ++ '\x7b' :: rest)) = Except.ok (String.mk ('\x7b' :: rest)) := by
  cases p with
  | nil => simp [trimPrompt, indexBrace]
  | cons c p =>
    have h := indexBrace_append (c :: p) rest hp
    simp only [List.length_cons, List.cons_append] at h
    simp [trimPrompt, h]

/-- C5 (amended): for captured output `P ++ J ++ "\n"` where `P` holds no opening brace and
`J` begins with one, the bytes returned for decoding are `J` followed by the newline: the
prompt is cut off, the trailing newline is kept. -/
theorem trimPrompt_keeps_newline (P J : String) (hP : '\x7b' ∉ P.data)
    (hJ : J.data.head? = some '\x7b') :
    trimPrompt (P ++ J ++ "\n") = Except.ok (J ++ "\n") := by
  obtain ⟨j⟩ := J
  cases j with
  | nil => simp at hJ
  | cons c j =>
    simp at hJ
    subst hJ
    have h := trimPrompt_split P.data (j ++ ['\n']) hP
    have e1 : P ++ String.mk ('\x7b' :: j) ++ "\n" = String.mk (P.data ++ '\x7b' :: (j ++ ['\n'])) := by
      apply String.ext
      simp
    have e2 : String.mk ('\x7b' :: j) ++ "\n" = String.mk ('\x7b' :: (j ++ ['\n'])) := by
      apply String.ext
      simp
    rw [e1, e2, h]

theorem trimPrompt_keeps_newline_witness :
    '\x7b' ∉ "Some prompt text\n".data ∧
    "\x7b\"success\":true,\"data\":\x7b\x7d\x7d".data.head? = some '\x7b' ∧
    trimPrompt ("Some prompt text\n" ++ "\x7b\"success\":true,\"data\":\x7b\x7d\x7d" ++ "\n") =
      Except.ok ("\x7b\"success\":true,\"data\":\x7b\x7d\x7d" ++ "\n") :=
  ⟨by decide, by decide, trimPrompt_keeps_newline _ _ (by decide) (by decide)⟩

/-- C5 as stated fails: on the prompt `Some prompt text` and the success envelope the
returned bytes are not exactly the JSON text, they still end with the newline. -/
theorem trimPrompt_not_exact :
    ¬ (∀ P J : String, '\x7b' ∉ P.data → J.data.head? = some '\x7b' →
        J.data.getLast? = some '\x7d' → trimPrompt (P ++ J ++ "\n") = Except.ok J) := by
  intro h
  have h1 := h "Some prompt text\n" "\x7b\"success\":true,\"data\":\x7b\x7d\x7d"
    (by decide) (by decide) (by decide)
  have h2 : trimPrompt ("Some prompt text\n" ++ "\x7b\"success\":true,\"data\":\x7b\x7d\x7d" ++ "\n")
      = Except.ok "\x7b\"success\":true,\"data\":\x7b\x7d\x7d\n" := by rfl
  rw [h2] at h1
  injection h1 with h3
  revert h3
  decide

/-! ### C6: envelope failure -/

theorem convertKeys_envelopeFailure (m : String) :
    convertKeys (envelopeFailure m) listItemsConversion = (envelopeFailure m, none) := by
  rfl

set_option maxRecDepth 100000 in
/-- C6 as stated fails: the tool answers `list items` with the envelope
`success: false, message: bad "pw"` and exit status 1. `bwListItems` returns the error of
`runOnly`, whose text holds the raw output with the quotes of the message escaped, and
does not contain the message. -/
theorem listItems_envelope_failure_exit_one :
    ¬ (∀ (σ : Type) (env : Env σ) (s : Session σ) (m out bytes : String) (data : Doc)
        (err : Option ExecError) (st : σ),
        env.run s.state
          { listItemsCmd s.client with stdin := some (s.client.MasterPassword ++ "\n") } =
            ({ output := out, err := err }, st) →
        trimPrompt out = Except.ok bytes →
        env.jsonValid bytes = true →
        env.jsonUnmarshal bytes = Except.ok (envelopeFailure m) →
        env.decodeResponse (envelopeFailure m) =
          Except.ok { Success := false, Message := m, Data := data } →
        ∃ text, (bwListItems env s).1 = Except.error (BwError.text text) ∧
          m.data <:+: text.data) := by
  intro h
  obtain ⟨text, h1, h2⟩ := h Unit exitOneEnv ⟨exampleClient "https://vault.example", (), []⟩
    "bad \"pw\"" outBadPw outBadPw Doc.empty (some (ExecError.exit 1 "exit status 1")) ()
    rfl rfl rfl rfl rfl
  have h3 : (bwListItems exitOneEnv ⟨exampleClient "https://vault.example", (), []⟩).1 =
      Except.error (BwError.text
        ("cannot list items: " ++ outBadPw ++ "\nexit code: " ++ "exit status 1")) := rfl
  rw [h3] at h1
  injection h1 with h4
  injection h4 with h5
  subst h5
  revert h2
  decide

/-- C6 (amended): when the output of the `list items` command, prompts trimmed, decodes to
the envelope `success: false, message: m`, `convertToDataIfSuccessful` with the
list-items descriptor returns no data and the error `unsuccessful list items: m`, whose
text contains `m`. `bwListItems` returns no data and an error in every case: that same
error when the command exits with status 0, and the error of `runOnly`, whose text
contains the raw output, when it exits with another status. Whenever
`convertToDataIfSuccessful` returns data, the decoded response had `success` true and
the data is that response's `data`. -/
theorem listItems_envelope_failure {σ : Type} (env : Env σ) (s : Session σ)
    (m out bytes : String) (data : Doc) (err : Option ExecError) (st : σ)
    (hrun : env.run s.state
      { listItemsCmd s.client with stdin := some (s.client.MasterPassword ++ "\n") } =
        ({ output := out, err := err }, st))
    (htrim : trimPrompt out = Except.ok bytes)
    (hvalid : env.jsonValid bytes = true)
    (hjson : env.jsonUnmarshal bytes = Except.ok (envelopeFailure m))
    (hdecode : env.decodeResponse (envelopeFailure m) =
      Except.ok { Success := false, Message := m, Data := data }) :
    convertToDataIfSuccessful env bytes "list items" (some listItemsConversion) =
      Except.error (BwError.text ("unsuccessful list items: " ++ m)) ∧
    m.data <:+: ("unsuccessful list items: " ++ m).data ∧
    ((∀ e, err = some e → e.fatal 0 = false) →
      (bwListItems env s).1 =
        Except.error (BwError.text ("unsuccessful list items: " ++ m))) ∧
    (∀ e, err = some e → e.fatal 0 = true →
      (bwListItems env s).1 = Except.error (BwError.text
        ("cannot list items: " ++ out ++ "\nexit code: " ++ e.text)) ∧
      out.data <:+: ("cannot list items: " ++ out ++ "\nexit code: " ++ e.text).data) ∧
    ∀ (bytes' name : String) (kc : Option Descriptor) (d : Doc),
      convertToDataIfSuccessful env bytes' name kc = Except.ok d →
      ∃ r, convertToResponse env bytes' name kc = Except.ok r ∧ r.Success = true ∧
        r.Data = d := by
  have h1 : convertToDataIfSuccessful env bytes "list items" (some listItemsConversion) =
      Except.error (BwError.text ("unsuccessful list items: " ++ m)) := by
    simp [convertToDataIfSuccessful, convertToResponse, UnmarshalConvertKeys, hvalid, hjson,
      convertKeysPtr, convertKeys_envelopeFailure, hdecode]
  refine ⟨h1, ?_, ?_, ?_, ?_⟩
  · exact ⟨"unsuccessful list items: ".data, [], by simp⟩
  · intro hok
    cases err with
    | none =>
      simp [bwListItems, runGivingPasswordExpectingSuccess, runAndGivePassword, runOnly, hrun,
        htrim, h1]
    | some e =>
      have he := hok e rfl
      simp [bwListItems, runGivingPasswordExpectingSuccess, runAndGivePassword, runOnly, hrun,
        htrim, h1, he]
  · intro e he hfatal
    subst he
    constructor
    · simp [bwListItems, runGivingPasswordExpectingSuccess, runAndGivePassword, runOnly, hrun,
        hfatal]
    · exact ⟨"cannot list items: ".data, ("\nexit code: " ++ e.text).data, by simp⟩
  · intro bytes' name kc d h
    unfold convertToDataIfSuccessful at h
    cases hr : convertToResponse env bytes' name kc with
    | error e => simp [hr] at h
    | ok r =>
      simp only [hr] at h
      by_cases hs : r.Success = true
      · simp [hs] at h
        exact ⟨r, rfl, hs, h⟩
      · simp [hs] at h

set_option maxRecDepth 100000 in
theorem listItems_envelope_failure_witness :
    (bwListItems refusingEnv ⟨exampleClient "https://vault.example", (), []⟩).1 =
      Except.error (BwError.text ("unsuccessful list items: " ++ "invalid master password")) ∧
    "invalid master password".data <:+:
      ("unsuccessful list items: " ++ "invalid master password").data :=
  have h := listItems_envelope_failure refusingEnv ⟨exampleClient "https://vault.example", (), []⟩
    "invalid master password" outInvalid outInvalid Doc.empty none () rfl rfl rfl rfl rfl
  ⟨h.2.2.1 (fun e he => by cases he), h.2.1⟩

/-! ### Lemmas on the commands a call issues -/

theorem runOnly_snd {σ : Type} (env : Env σ) (s : Session σ) (cmd : Invocation)
    (friendlyName : String) (ignoreCode : Int) :
    (runOnly env s cmd friendlyName ignoreCode).2 =
      { s with state := (env.run s.state cmd).2, trace := s.trace ++ [cmd] } := by
  unfold runOnly
  rcases env.run s.state cmd with ⟨result, state⟩
  rcases result with ⟨output, err⟩
  cases err with
  | none => rfl
  | some e =>
    simp only
    split <;> rfl

theorem runAndCheckSucceeded_snd {σ : Type} (env : Env σ) (s : Session σ) (cmd : Invocation)
    (friendlyName : String) (ignoreCode : Int) :
    (runAndCheckSucceeded env s cmd friendlyName ignoreCode).2 =
      { s with state := (env.run s.state cmd).2, trace := s.trace ++ [cmd] } := by
  have h := runOnly_snd env s cmd friendlyName ignoreCode
  unfold runAndCheckSucceeded
  rcases hr : runOnly env s cmd friendlyName ignoreCode with ⟨r, s1⟩
  rw [hr] at h
  simp only at h
  subst h
  cases r with
  | error e => rfl
  | ok bytes =>
    simp only
    split <;> rfl

theorem runExpectingSuccess_snd {σ : Type} (env : Env σ) (s : Session σ) (cmd : Invocation)
    (friendlyName : String) (keyConversion : Option Descriptor) :
    (runExpectingSuccess env s cmd friendlyName keyConversion).2 =
      { s with state := (env.run s.state cmd).2, trace := s.trace ++ [cmd] } := by
  have h := runOnly_snd env s cmd friendlyName 0
  unfold runExpectingSuccess
  rcases hr : runOnly env s cmd friendlyName 0 with ⟨r, s1⟩
  rw [hr] at h
  simp only at h
  subst h
  cases r <;> rfl

theorem runAndGivePassword_snd {σ : Type} (env : Env σ) (s : Session σ)
    (cmd : Invocation) (friendlyName : String) :
    (runAndGivePassword env s cmd friendlyName).2 =
      { s with
        state := (env.run s.state
          { cmd with stdin := some (s.client.MasterPassword ++ "\n") }).2,
        trace := s.trace ++ [{ cmd with stdin := some (s.client.MasterPassword ++ "\n") }] } := by
  have h := runOnly_snd env s { cmd with stdin := some (s.client.MasterPassword ++ "\n") }
    friendlyName 0
  unfold runAndGivePassword
  rcases hr : runOnly env s { cmd with stdin := some (s.client.MasterPassword ++ "\n") }
    friendlyName 0 with ⟨r, s1⟩
  rw [hr] at h
  simp only at h
  subst h
  cases r <;> rfl

theorem runGivingPasswordExpectingSuccess_snd {σ : Type} (env : Env σ) (s : Session σ)
    (cmd : Invocation) (friendlyName : String) (keyConversion : Option Descriptor) :
    (runGivingPasswordExpectingSuccess env s cmd friendlyName keyConversion).2 =
      { s with
        state := (env.run s.state
          { cmd with stdin := some (s.client.MasterPassword ++ "\n") }).2,
        trace := s.trace ++ [{ cmd with stdin := some (s.client.MasterPassword ++ "\n") }] } := by
  have h := runAndGivePassword_snd env s cmd friendlyName
  unfold runGivingPasswordExpectingSuccess
  rcases hr : runAndGivePassword env s cmd friendlyName with ⟨r, s1⟩
  rw [hr] at h
  simp only at h
  subst h
  cases r <;> rfl

theorem bwStatus_snd {σ : Type} (env : Env σ) (s : Session σ) :
    (bwStatus env s).2 =
      { s with state := (env.run s.state (statusCmd s.client)).2,
               trace := s.trace ++ [statusCmd s.client] } := by
  have h := runExpectingSuccess_snd env s (statusCmd s.client) "status" none
  unfold bwStatus
  rcases hr : runExpectingSuccess env s (statusCmd s.client) "status" none with ⟨r, s1⟩
  rw [hr] at h
  simp only at h
  subst h
  cases r with
  | error e => rfl
  | ok d =>
    simp only
    split <;> rfl

/-- The only command `bwListItems` issues is `list items`, with the password on standard
input; no login or unlock check comes before it. -/
theorem bwListItems_trace {σ : Type} (env : Env σ) (s : Session σ) :
    (bwListItems env s).2.trace =
      s.trace ++ [{ listItemsCmd s.client with stdin := some (s.client.MasterPassword ++ "\n") }] := by
  have h := runGivingPasswordExpectingSuccess_snd env s (listItemsCmd s.client) "list items"
    (some listItemsConversion)
  unfold bwListItems
  rcases hr : runGivingPasswordExpectingSuccess env s (listItemsCmd s.client) "list items"
    (some listItemsConversion) with ⟨r, s1⟩
  rw [hr] at h
  simp only at h
  subst h
  cases r with
  | error e => rfl
  | ok d =>
    simp only
    split <;> rfl

/-! ### C7: `bwListItems` and `ensureUnlocked` -/

set_option maxRecDepth 100000 in
/-- C7 (failing input): against a tool on another server than the configured one
`ensureUnlocked` fails, and `bwSync` issues exactly the commands of that failed
`ensureUnlocked` and nothing more; `bwListItems` on the same session issues the
`list items` command as its first and only command, no `ensureUnlocked` before it. -/
theorem bwListItems_skips_ensureUnlocked :
    (ensureUnlocked exampleEnv (exampleSession "https://bitwarden.com" true)).1.isSome = true ∧
    (bwSync exampleEnv (exampleSession "https://bitwarden.com" true)).2.trace =
      (ensureUnlocked exampleEnv (exampleSession "https://bitwarden.com" true)).2.trace ∧
    (ensureUnlocked exampleEnv (exampleSession "https://bitwarden.com" true)).2.trace =
      [⟨"bw", ["login", "--check", "--response"], none⟩,
       ⟨"bw", ["status", "--response", "--session", ""], none⟩] ∧
    (bwListItems exampleEnv (exampleSession "https://bitwarden.com" true)).2.trace =
      [⟨"bw", ["list", "items", "--response", "--session", ""], some "pw\n"⟩] := by
  decide

/-! ### C8: server mismatch -/

set_option maxRecDepth 100000 in
theorem exampleEnv_status (s : Session ToolState) :
    (bwStatus exampleEnv s).1 = Except.ok (some exampleStatus) := by
  rfl

set_option maxRecDepth 100000 in
/-- C8 as stated fails: when the tool reports not logged in, `ensureLoggedInAsCorrectUser`
issues a `login` command before it queries the status, although every status query
reports another server than the configured one. -/
theorem ensureLoggedIn_mismatch_logs_in :
    ¬ (∀ (σ : Type) (env : Env σ) (s : Session σ),
        (∀ s' : Session σ, ∃ status,
          (bwStatus env s').1 = Except.ok (some status) ∧
          status.ServerUrl ≠ s.client.Server) →
        (ensureLoggedInAsCorrectUser env s).1.isSome = true ∧
        ∀ cmd ∈ (ensureLoggedInAsCorrectUser env s).2.trace.drop s.trace.length,
          cmd.isLogin = false ∧ cmd.isLogout = false) := by
  intro h
  have h1 := h ToolState exampleEnv (exampleSession "https://bitwarden.com" false)
    (fun s' => ⟨exampleStatus, exampleEnv_status s', by decide⟩)
  have h2 := h1.2 ⟨"bw", ["login", "--response", "ann@example.org"], some "pw\n"⟩
    (by decide)
  exact absurd h2.1 (by decide)

theorem bwLoginCheck_snd {σ : Type} (env : Env σ) (s : Session σ) :
    (bwLoginCheck env s).2 = { s with
      state := (env.run s.state (loginCheckCmd s.client)).2,
      trace := s.trace ++ [loginCheckCmd s.client] } :=
  runAndCheckSucceeded_snd env s (loginCheckCmd s.client) "login --check" 1

theorem bwLogout_client {σ : Type} (env : Env σ) (s : Session σ) :
    (bwLogout env s).2.client = s.client := by
  have h1 := bwLoginCheck_snd env s
  unfold bwLogout
  rcases hl : bwLoginCheck env s with ⟨r1, s1⟩
  rw [hl] at h1
  simp only at h1
  have hc : s1.client = s.client := by rw [h1]
  cases r1 with
  | error e => exact hc
  | ok b =>
    cases b with
    | false => exact hc
    | true =>
      have h2 := runAndCheckSucceeded_snd env s1 (logoutCmd s1.client) "logout" 1
      rcases hr : runAndCheckSucceeded env s1 (logoutCmd s1.client) "logout" 1 with ⟨r2, s2⟩
      rw [hr] at h2
      simp only at h2
      have hc2 : s2.client = s1.client := by rw [h2]
      simp only [hr]
      cases r2 <;> exact hc2.trans hc

theorem ensureLoggedOut_client {σ : Type} (env : Env σ) (s : Session σ) :
    (ensureLoggedOut env s).2.client = s.client := by
  have h1 := bwLoginCheck_snd env s
  unfold ensureLoggedOut
  rcases hl : bwLoginCheck env s with ⟨r1, s1⟩
  rw [hl] at h1
  simp only at h1
  have hc : s1.client = s.client := by rw [h1]
  cases r1 with
  | error e => exact hc
  | ok b =>
    cases b with
    | false => exact hc
    | true => exact (bwLogout_client env s1).trans hc

theorem bwLogin_server {σ : Type} (env : Env σ) (s : Session σ) :
    (bwLogin env s).2.client.Server = s.client.Server := by
  have h1 := ensureLoggedOut_client env s
  unfold bwLogin
  rcases hl : ensureLoggedOut env s with ⟨r1, s1⟩
  rw [hl] at h1
  simp only at h1
  cases r1 with
  | some e => simp only [h1]
  | none =>
    have h2 := runGivingPasswordExpectingSuccess_snd env s1 (loginCmd s1.client) "login" none
    rcases hr : runGivingPasswordExpectingSuccess env s1 (loginCmd s1.client) "login" none
      with ⟨r2, s2⟩
    rw [hr] at h2
    simp only at h2
    have hc2 : s2.client = s.client := by rw [h2]; exact h1
    cases r2 with
    | error e => simp only [hr, hc2]
    | ok d => simp only [hr, decodeSessionData, hc2]

theorem checkCorrectUser_server_mismatch {σ : Type} (env : Env σ) (s : Session σ)
    (status : Status) (h : (bwStatus env s).1 = Except.ok (some status))
    (hne : status.ServerUrl ≠ s.client.Server) :
    checkCorrectUser env s =
      (Except.error (BwError.text ("mismatching serverUrl (" ++ status.ServerUrl ++
        ") and server_url (" ++ s.client.Server ++ ")")), (bwStatus env s).2) := by
  have h2 := bwStatus_snd env s
  rcases hb : bwStatus env s with ⟨r2, s2⟩
  rw [hb] at h h2
  simp only at h h2
  subst h
  have hc2 : s2.client = s.client := by rw [h2]
  have hne2 : status.ServerUrl ≠ s2.client.Server := by rw [hc2]; exact hne
  simp [checkCorrectUser, hb, hc2, hne]

/-- C8 (amended): when every status query reports a `ServerUrl` different from the
configured `Server`, `ensureLoggedInAsCorrectUser` returns an error. When the first login
check reports logged in it issues exactly that check and one status query, when the
first login check itself fails it issues that check alone: in both cases neither a
`logout` nor a `login` command. -/
theorem ensureLoggedIn_server_mismatch {σ : Type} (env : Env σ) (s : Session σ)
    (hstatus : ∀ s' : Session σ, ∃ status,
      (bwStatus env s').1 = Except.ok (some status) ∧ status.ServerUrl ≠ s.client.Server) :
    (ensureLoggedInAsCorrectUser env s).1.isSome = true ∧
    ((bwLoginCheck env s).1 = Except.ok true →
      (ensureLoggedInAsCorrectUser env s).2.trace =
        s.trace ++ [loginCheckCmd s.client, statusCmd s.client]) ∧
    ((∃ err, (bwLoginCheck env s).1 = Except.error err) →
      (ensureLoggedInAsCorrectUser env s).2.trace = s.trace ++ [loginCheckCmd s.client]) ∧
    ((bwLoginCheck env s).1 ≠ Except.ok false →
      ∀ cmd ∈ (ensureLoggedInAsCorrectUser env s).2.trace.drop s.trace.length,
        cmd.isLogin = false ∧ cmd.isLogout = false) := by
  have h1 := bwLoginCheck_snd env s
  rcases hl : bwLoginCheck env s with ⟨r1, s1⟩
  rw [hl] at h1
  simp only at h1
  have hc : s1.client = s.client := by rw [h1]
  have ht : s1.trace = s.trace ++ [loginCheckCmd s.client] := by rw [h1]
  cases r1 with
  | error e =>
    have hres : ensureLoggedInAsCorrectUser env s = (some e, s1) := by
      simp [ensureLoggedInAsCorrectUser, hl]
    rw [hres]
    refine ⟨rfl, (fun h => by simp at h), (fun _ => ht), (fun _ => ?_)⟩
    simp only [ht]
    intro cmd hcmd
    simp at hcmd
    subst hcmd
    constructor <;> rfl
  | ok b =>
    cases b with
    | true =>
      obtain ⟨status, hst, hne⟩ := hstatus s1
      have hck := checkCorrectUser_server_mismatch env s1 status hst (by rw [hc]; exact hne)
      have h2 := bwStatus_snd env s1
      have hres : ensureLoggedInAsCorrectUser env s =
          (some (BwError.text ("mismatching serverUrl (" ++ status.ServerUrl ++
            ") and server_url (" ++ s1.client.Server ++ ")")), (bwStatus env s1).2) := by
        simp [ensureLoggedInAsCorrectUser, hl, hck]
      have htr : (bwStatus env s1).2.trace =
          s.trace ++ [loginCheckCmd s.client, statusCmd s.client] := by
        rw [h2]
        simp only
        rw [hc, ht]
        simp
      rw [hres]
      refine ⟨rfl, (fun _ => htr), (fun h => ?_), (fun _ => ?_)⟩
      · obtain ⟨err, herr⟩ := h
        simp at herr
      · simp only [htr]
        intro cmd hcmd
        simp at hcmd
        rcases hcmd with h | h <;> subst h <;> constructor <;> rfl
    | false =>
      refine ⟨?_, (fun h => by simp at h), (fun h => ?_), (fun h => absurd rfl h)⟩
      · have hsrv := bwLogin_server env s1
        simp only [ensureLoggedInAsCorrectUser, hl]
        rcases hlg : bwLogin env s1 with ⟨r2, s2⟩
        rw [hlg] at hsrv
        simp only at hsrv
        cases r2 with
        | some e => rfl
        | none =>
          obtain ⟨status, hst, hne⟩ := hstatus s2
          have hck := checkCorrectUser_server_mismatch env s2 status hst
            (by rw [hsrv, hc]; exact hne)
          simp only [hck]
          rfl
      · obtain ⟨err, herr⟩ := h
        simp at herr

set_option maxRecDepth 100000 in
theorem ensureLoggedIn_server_mismatch_witness :
    (∀ s' : Session ToolState, ∃ status,
      (bwStatus exampleEnv s').1 = Except.ok (some status) ∧
      status.ServerUrl ≠ (exampleSession "https://bitwarden.com" true).client.Server) ∧
    (bwLoginCheck exampleEnv (exampleSession "https://bitwarden.com" true)).1 = Except.ok true ∧
    (ensureLoggedInAsCorrectUser exampleEnv
      (exampleSession "https://bitwarden.com" true)).1.isSome = true ∧
    (ensureLoggedInAsCorrectUser exampleEnv (exampleSession "https://bitwarden.com" true)).2.trace =
      [] ++ [loginCheckCmd (exampleClient "https://bitwarden.com"),
        statusCmd (exampleClient "https://bitwarden.com")] :=
  have h := ensureLoggedIn_server_mismatch exampleEnv (exampleSession "https://bitwarden.com" true)
    (fun s' => ⟨exampleStatus, exampleEnv_status s', by decide⟩)
  ⟨fun s' => ⟨exampleStatus, exampleEnv_status s', by decide⟩, rfl, h.1, h.2.1 rfl⟩

/-! ### C9, C10: the session token -/

set_option maxRecDepth 100000 in
theorem exampleEnv_unlockCheck (s : Session ToolState) :
    (bwUnlockCheck exampleEnv s).1 =
      Except.ok (decide (s.state.token = some s.client.SessionKey)) := by
  have e : exampleRun s.state (unlockCheckCmd s.client) =
      if s.state.token = some s.client.SessionKey then
        ({ output := outTrue, err := none }, s.state)
      else ({ output := outFalse, err := some (ExecError.exit 1 "exit status 1") }, s.state) := rfl
  unfold bwUnlockCheck runAndCheckSucceeded runOnly
  simp only [exampleEnv, e]
  by_cases h : s.state.token = some s.client.SessionKey
  · simp only [h, if_true, decide_True]
    rfl
  · simp only [h, if_false, decide_False]
    rfl

theorem bwUnlock_sessionKey {σ : Type} (env : Env σ) (s : Session σ)
    (h : (bwUnlock env s).1 = none) : (bwUnlock env s).2.client.SessionKey = "" := by
  unfold bwUnlock at h ⊢
  rcases hr : runGivingPasswordExpectingSuccess env s (unlockCmd s.client) "unlock" none
    with ⟨r, s1⟩
  rw [hr] at h
  cases r with
  | error e => simp at h
  | ok d => rfl

set_option maxRecDepth 100000 in
/-- C9 (failing input): the example tool reports `unlock --check --session t` unlocked
exactly when `t` is the token of its most recent successful `unlock`, and hands out the
token `tok`. Two consecutive calls of `ensureUnlocked` both succeed, and each of them
issues an `unlock` command: two in total, the second call not finding the vault
unlocked. -/
theorem ensureUnlocked_twice_unlocks_twice :
    (∀ s : Session ToolState, (bwUnlockCheck exampleEnv s).1 =
      Except.ok (decide (s.state.token = some s.client.SessionKey))) ∧
    (ensureUnlocked exampleEnv (exampleSession "https://vault.example" true)).1 = none ∧
    (ensureUnlocked exampleEnv
      (ensureUnlocked exampleEnv (exampleSession "https://vault.example" true)).2).1 = none ∧
    ((ensureUnlocked exampleEnv
      (ensureUnlocked exampleEnv (exampleSession "https://vault.example" true)).2).2.trace.filter
        Invocation.isUnlock).length = 2 ∧
    (ensureUnlocked exampleEnv
      (ensureUnlocked exampleEnv (exampleSession "https://vault.example" true)).2).2.trace.drop
        (ensureUnlocked exampleEnv (exampleSession "https://vault.example" true)).2.trace.length =
      [⟨"bw", ["login", "--check", "--response"], none⟩,
       ⟨"bw", ["status", "--response", "--session", ""], none⟩,
       ⟨"bw", ["unlock", "--check", "--response", "--session", ""], none⟩,
       ⟨"bw", ["unlock", "--response"], some "pw\n"⟩] :=
  ⟨exampleEnv_unlockCheck, by decide, by decide, by decide, by decide⟩

set_option maxRecDepth 100000 in
/-- C10 (failing input): the example tool answers `unlock` and `login` with a success
envelope whose data has `raw` equal to `tok`. `bwUnlock` and `bwLogin` return no error, and
the session key they leave is the empty string, not `tok`. -/
theorem bwUnlock_drops_token :
    (runGivingPasswordExpectingSuccess exampleEnv (exampleSession "https://vault.example" true)
      (unlockCmd (exampleClient "https://vault.example")) "unlock" none).1.toOption.bind
        (fun data => data "raw") = some (Value.str "tok") ∧
    (bwUnlock exampleEnv (exampleSession "https://vault.example" true)).1 = none ∧
    (bwUnlock exampleEnv (exampleSession "https://vault.example" true)).2.client.SessionKey = "" ∧
    (bwLogin exampleEnv (exampleSession "https://vault.example" false)).1 = none ∧
    (bwLogin exampleEnv (exampleSession "https://vault.example" false)).2.client.SessionKey = "" ∧
    (bwLogin exampleEnv (exampleSession "https://vault.example" false)).2.trace =
      [⟨"bw", ["login", "--check", "--response"], none⟩,
       ⟨"bw", ["login", "--response", "ann@example.org"], some "pw\n"⟩] :=
  ⟨rfl, rfl, rfl, rfl, rfl, by decide⟩

/-! ### C13, C16: `convertKey` -/

/-- C13: when `oldKey` is present in `D` with value `v` and `newKey` differs from `oldKey`,
after `convertKey(D, oldKey, newKey)` the document maps `newKey` to `v` (whatever it held
before), does not contain `oldKey`, and maps every other key as before. -/
theorem convertKey_rename (D : Doc) (oldKey newKey : String) (v : Value)
    (hold : D oldKey = some v) (hne : newKey ≠ oldKey) :
    (convertKey D oldKey newKey) newKey = some v ∧
    ¬ (convertKey D oldKey newKey).Contains oldKey ∧
    ∀ k, k ≠ oldKey → k ≠ newKey → (convertKey D oldKey newKey) k = D k := by
  have h : convertKey D oldKey newKey = (D.set newKey v).delete oldKey := by
    simp [convertKey, hold]
  rw [h]
  refine ⟨?_, ?_, ?_⟩
  · simp [Doc.set, Doc.delete, hne]
  · simp [Doc.Contains, Doc.delete]
  · intro k h1 h2
    simp [Doc.set, Doc.delete, h1, h2]

theorem convertKey_rename_witness :
    docCard "id" = some (Value.str "1") ∧ "card" ≠ "id" ∧
    ((convertKey docCard "id" "card") "card" = some (Value.str "1") ∧
    ¬ (convertKey docCard "id" "card").Contains "id" ∧
    ∀ k, k ≠ "id" → k ≠ "card" → (convertKey docCard "id" "card") k = docCard k) :=
  ⟨rfl, by decide, convertKey_rename docCard "id" "card" (Value.str "1") rfl (by decide)⟩

/-- C16: `convertKey(D, K, K)` leaves `D` without the key `K` when `K` was present (the
value is lost), keeps every other key as it was, and leaves `D` unchanged when `K` is
absent. -/
theorem convertKey_self (D : Doc) (K : String) :
    (D.Contains K → ¬ (convertKey D K K).Contains K) ∧
    (∀ k, k ≠ K → (convertKey D K K) k = D k) ∧
    (¬ D.Contains K → convertKey D K K = D) := by
  refine ⟨?_, ?_, ?_⟩
  · intro _
    cases h : D K with
    | none => simp [convertKey, h, Doc.Contains]
    | some v => simp [convertKey, h, Doc.Contains, Doc.delete]
  · intro k hk
    cases h : D K with
    | none => simp [convertKey, h]
    | some v => simp [convertKey, h, Doc.set, Doc.delete, hk]
  · intro hK
    have h : D K = none := by
      unfold Doc.Contains at hK
      simpa using hK
    simp [convertKey, h]

/-! ### C11: identity mismatch -/

/-- `checkCorrectUser` never returns `false` without an error: the branch of
`ensureLoggedInAsCorrectUser` that logs out and in again cannot be reached. -/
theorem checkCorrectUser_ne_false {σ : Type} (env : Env σ) (s : Session σ) :
    (checkCorrectUser env s).1 ≠ Except.ok false := by
  unfold checkCorrectUser
  rcases bwStatus env s with ⟨r, s1⟩
  cases r with
  | error e => simp
  | ok st =>
    cases st with
    | none => simp
    | some status =>
      simp only
      split_ifs <;> simp

set_option maxRecDepth 100000 in
/-- C11 (failing input): the client is configured for `bob@example.org`, the tool is logged
in and its status has the configured server and the e-mail `ann@example.org`.
`ensureLoggedInAsCorrectUser` returns the mismatch error after the login check and one
status query; it issues no `logout` and no `login` command. -/
theorem ensureLoggedIn_email_mismatch_returns :
    otherEmailSession.client.Email ≠ "" ∧
    (bwLoginCheck exampleEnv otherEmailSession).1 = Except.ok true ∧
    (∀ s : Session ToolState, (bwStatus exampleEnv s).1 = Except.ok (some exampleStatus)) ∧
    exampleStatus.ServerUrl = otherEmailSession.client.Server ∧
    exampleStatus.UserEmail ≠ otherEmailSession.client.Email ∧
    (ensureLoggedInAsCorrectUser exampleEnv otherEmailSession).1 =
      some (BwError.text "mismatching userEmail (ann@example.org) and email (bob@example.org)") ∧
    (ensureLoggedInAsCorrectUser exampleEnv otherEmailSession).2.trace =
      [⟨"bw", ["login", "--check", "--response"], none⟩,
       ⟨"bw", ["status", "--response", "--session", ""], none⟩] :=
  ⟨by decide, rfl, exampleEnv_status, by decide, by decide, by decide, by decide⟩

/-! ### C12: enclosure errors in the item read -/

/-- Whatever `encloseMaps` returns as error, `dataSourceItemRead` hands the enclosure's
`real` entry to the host, and its diagnostics are those of the host alone. -/
theorem dataSourceItemRead_handed {σ : Type} (env : Env σ) (host : Host) (s s1 : Session σ)
    (data : List Value) (h : bwListItems env s = (Except.ok data, s1)) :
    (dataSourceItemRead env host s).1.handed =
      some ((encloseMaps (Doc.empty.set "real" (Value.list data)) itemsEnclosure).1.index "real") ∧
    (dataSourceItemRead env host s).1.diags =
      (host.set ((encloseMaps (Doc.empty.set "real" (Value.list data)) itemsEnclosure).1.index
        "real")).map BwError.setItems := by
  unfold dataSourceItemRead
  rw [h]
  simp only
  cases host.set ((encloseMaps (Doc.empty.set "real" (Value.list data)) itemsEnclosure).1.index "real") <;> simp

/-! ### Lemmas on list descent in list order -/

theorem convertKeys_renames_ok (R : Descriptor)
    (hleaf : ∀ e ∈ R, ∃ newKey, e.2 = Conv.str newKey) (d : Doc) :
    (convertKeys d R).2 = none := by
  induction R generalizing d with
  | nil => simp [convertKeys]
  | cons e rest ih =>
    obtain ⟨key, element⟩ := e
    obtain ⟨newKey, hnew⟩ := hleaf (key, element) (List.mem_cons_self _ _)
    simp only at hnew
    subst hnew
    simp only [convertKeys, convertEntry, convertElement]
    exact ih (fun e he => hleaf e (List.mem_cons_of_mem _ he)) _

theorem convertKeysEach_renames (Rs : List Descriptor)
    (hleaf : ∀ R ∈ Rs, ∀ e ∈ R, ∃ newKey, e.2 = Conv.str newKey) (m : Doc) :
    convertKeysEach m Rs = (Rs.foldl (fun d R => (convertKeys d R).1) m, none) := by
  induction Rs generalizing m with
  | nil => simp [convertKeysEach]
  | cons R rest ih =>
    have h := convertKeys_renames_ok R (hleaf R (List.mem_cons_self _ _)) m
    rcases hc : convertKeys m R with ⟨m', e⟩
    rw [hc] at h
    simp only at h
    subst h
    simp only [convertKeysEach, hc, List.foldl_cons]
    exact ih (fun R hR => hleaf R (List.mem_cons_of_mem _ hR)) m'

theorem eachItem_maps (f : Doc → Doc × Option BwError) (notMap : BwError)
    (hf : ∀ m, (f m).2 = none) (ms : List Doc) :
    eachItem f notMap (ms.map Value.map) = (ms.map (fun m => Value.map (f m).1), none) := by
  induction ms with
  | nil => simp [eachItem]
  | cons m rest ih =>
    have h := hf m
    rcases hm : f m with ⟨m', e⟩
    rw [hm] at h
    simp only at h
    subst h
    simp [eachItem, hm, ih]

theorem eachItem_not_map (f : Doc → Doc × Option BwError) (notMap : BwError)
    (hf : ∀ m, (f m).2 = none) (items : List Value)
    (h : ∃ item ∈ items, ∀ m, item ≠ Value.map m) :
    (eachItem f notMap items).2 = some notMap := by
  induction items with
  | nil => simp at h
  | cons item rest ih =>
    cases item with
    | map m =>
      have hrest : ∃ item ∈ rest, ∀ m, item ≠ Value.map m := by
        obtain ⟨it, hit, hne⟩ := h
        rcases List.mem_cons.mp hit with h1 | h1
        · exact absurd h1 (hne m)
        · exact ⟨it, h1, hne⟩
      have h2 := hf m
      rcases hm : f m with ⟨m', e⟩
      rw [hm] at h2
      simp only at h2
      subst h2
      simp only [eachItem, hm]
      exact ih hrest
    | null => simp [eachItem]
    | bool b => simp [eachItem]
    | num n => simp [eachItem]
    | str s => simp [eachItem]
    | list xs => simp [eachItem]

/-! ### C15: iteration order of the list-items descriptor -/

theorem eachItem_run (value : List (List (String × Conv)))
    (h : ∀ m, EachRun m value (convertKeysEach m value).1 (convertKeysEach m value).2)
    (items : List Value) :
    ItemsRun value items
      (eachItem (fun itemAsMap => convertKeysEach itemAsMap value)
        BwError.convertMismatch1 items).1
      (eachItem (fun itemAsMap => convertKeysEach itemAsMap value)
        BwError.convertMismatch1 items).2 := by
  induction items with
  | nil => exact ItemsRun.done value
  | cons item rest ih =>
    cases item with
    | map m =>
      have hm := h m
      rcases hc : convertKeysEach m value with ⟨m1, e⟩
      rw [hc] at hm
      cases e with
      | some err =>
        simp only [eachItem, hc]
        exact ItemsRun.fail rest hm
      | none =>
        simp only [eachItem, hc]
        exact ItemsRun.step hm ih
    | null => exact ItemsRun.notMap value rest (fun m h => by cases h)
    | bool b => exact ItemsRun.notMap value rest (fun m h => by cases h)
    | num n => exact ItemsRun.notMap value rest (fun m h => by cases h)
    | str s => exact ItemsRun.notMap value rest (fun m h => by cases h)
    | list xs => exact ItemsRun.notMap value rest (fun m h => by cases h)

mutual
theorem convertElement_run (input : Doc) (key : String) :
    (element : Conv) → ElementRun input key element
      (convertElement input key element).1 (convertElement input key element).2
  | Conv.str value => ElementRun.str input key value
  | Conv.maps value => by
    have h := eachItem_run value (fun m => convertKeysEach_run m value)
    unfold convertElement
    cases hk : input key with
    | none => exact ElementRun.mapsAbsent value hk
    | some v =>
      cases v with
      | list inputChild => exact ElementRun.mapsList hk (h inputChild)
      | null => exact ElementRun.mapsNull value hk
      | bool b => exact ElementRun.mapsOther value hk (fun _ h => by cases h) (fun h => by cases h)
      | num b => exact ElementRun.mapsOther value hk (fun _ h => by cases h) (fun h => by cases h)
      | str b => exact ElementRun.mapsOther value hk (fun _ h => by cases h) (fun h => by cases h)
      | map b => exact ElementRun.mapsOther value hk (fun _ h => by cases h) (fun h => by cases h)
  | Conv.map value => by
    have h := fun m => KeysRun.any (List.Perm.refl _) (convertKeys_ordered m value)
    unfold convertElement
    cases hk : input key with
    | none => exact ElementRun.mapAbsent value hk
    | some v =>
      cases v with
      | map inputChild => exact ElementRun.mapMap hk (h inputChild)
      | null => exact ElementRun.mapNull value hk
      | bool b => exact ElementRun.mapOther value hk (fun _ h => by cases h) (fun h => by cases h)
      | num b => exact ElementRun.mapOther value hk (fun _ h => by cases h) (fun h => by cases h)
      | str b => exact ElementRun.mapOther value hk (fun _ h => by cases h) (fun h => by cases h)
      | list b => exact ElementRun.mapOther value hk (fun _ h => by cases h) (fun h => by cases h)
  | Conv.other => ElementRun.other input key
termination_by structural element => element
theorem convertEntry_run (input : Doc) :
    (entry : String × Conv) → ElementRun input entry.1 entry.2
      (convertEntry input entry).1 (convertEntry input entry).2
  | (key, element) => convertElement_run input key element
termination_by structural entry => entry
theorem convertKeys_ordered (input : Doc) :
    (keyConversion : List (String × Conv)) → OrderedRun input keyConversion
      (convertKeys input keyConversion).1 (convertKeys input keyConversion).2
  | [] => OrderedRun.done input
  | entry :: rest => by
    have h1 := convertEntry_run input entry
    have h2 := fun mid => convertKeys_ordered mid rest
    obtain ⟨key, element⟩ := entry
    rcases hc : convertEntry input (key, element) with ⟨mid, e⟩
    rw [hc] at h1
    cases e with
    | some err =>
      simp only [convertKeys, hc]
      exact OrderedRun.fail rest h1
    | none =>
      simp only [convertKeys, hc]
      exact OrderedRun.step h1 (h2 mid)
termination_by structural keyConversion => keyConversion
theorem convertKeysEach_run (itemAsMap : Doc) :
    (value : List (List (String × Conv))) → EachRun itemAsMap value
      (convertKeysEach itemAsMap value).1 (convertKeysEach itemAsMap value).2
  | [] => EachRun.done itemAsMap
  | keyConversionListItem :: rest => by
    have h1 := KeysRun.any (List.Perm.refl _)
      (convertKeys_ordered itemAsMap keyConversionListItem)
    have h2 := fun mid => convertKeysEach_run mid rest
    rcases hc : convertKeys itemAsMap keyConversionListItem with ⟨mid, e⟩
    rw [hc] at h1
    cases e with
    | some err =>
      simp only [convertKeysEach, hc]
      exact EachRun.fail rest h1
    | none =>
      simp only [convertKeysEach, hc]
      exact EachRun.step h1 (h2 mid)
termination_by structural value => value
end

/-- The function `convertKeys` is one of the possible executions, for every order of the
top-level entries. -/
theorem convertKeys_run (input : Doc) (keyConversion order : List (String × Conv))
    (h : order.Perm keyConversion) :
    KeysRun input keyConversion (convertKeys input order).1 (convertKeys input order).2 :=
  KeysRun.any h (convertKeys_ordered input order)

theorem Agree.refl {α : Type} (r : α × Option BwError) : Agree r r := ⟨rfl, fun _ => rfl⟩

theorem Agree.trans {α : Type} {a b c : α × Option BwError} (h1 : Agree a b) (h2 : Agree b c) :
    Agree a c := by
  refine ⟨h1.1.trans h2.1, fun h => ?_⟩
  have hb : b.2 = none := by
    have := h1.1
    rw [h] at this
    cases hb : b.2 with
    | none => rfl
    | some x => rw [hb] at this; simp at this
  exact (h1.2 h).trans (h2.2 hb)

theorem Agree.symm {α : Type} {a b : α × Option BwError} (h : Agree a b) : Agree b a := by
  refine ⟨h.1.symm, fun hb => ?_⟩
  have ha : a.2 = none := by
    have := h.1
    rw [hb] at this
    cases ha : a.2 with
    | none => rfl
    | some x => rw [ha] at this; simp at this
  exact (h.2 ha).symm

theorem agree_of_fail {α : Type} {a b : α × Option BwError} (ha : a.2.isSome = true)
    (hb : b.2.isSome = true) : Agree a b := by
  refine ⟨ha.trans hb.symm, fun h => ?_⟩
  rw [h] at ha
  simp at ha

theorem convertEntry_local (entry : String × Conv) :
    LocalTo (touched entry) (fun D => convertEntry D entry) := by
  obtain ⟨key, element⟩ := entry
  cases element with
  | str value =>
    constructor
    · intro D D' h
      have hk : D key = D' key := h key (by simp [touched])
      have hv : D value = D' value := h value (by simp [touched])
      refine ⟨rfl, ?_⟩
      intro k hkm
      simp only [touched, List.mem_cons, List.mem_singleton, List.not_mem_nil, or_false] at hkm
      simp only [convertEntry, convertElement, convertKey]
      rw [← hk]
      cases hD : D key with
      | none =>
        rcases hkm with h1 | h1 <;> subst h1
        · exact hk
        · exact hv
      | some v =>
        simp only [Doc.set, Doc.delete]
        by_cases h1 : k = key
        · simp [h1]
        · rcases hkm with h2 | h2
          · exact absurd h2 h1
          · simp [h1, h2]
    · intro D k hk
      simp only [touched, List.mem_cons, List.mem_singleton, List.not_mem_nil, or_false,
        not_or] at hk
      simp only [convertEntry, convertElement, convertKey]
      cases hD : D key with
      | none => rfl
      | some v => simp [Doc.set, Doc.delete, hk.1, hk.2]
  | maps value =>
    constructor
    · intro D D' h
      have hk : D key = D' key := h key (by simp [touched])
      simp only [touched, List.mem_singleton, forall_eq]
      simp only [convertEntry, convertElement]
      rw [← hk]
      cases hD : D key with
      | none => exact ⟨rfl, hk⟩
      | some v =>
        cases v <;> first
          | exact ⟨rfl, hk⟩
          | exact ⟨rfl, by simp [Doc.set]⟩
    · intro D k hk
      simp only [touched, List.mem_singleton] at hk
      simp only [convertEntry, convertElement]
      cases hD : D key with
      | none => rfl
      | some v =>
        cases v <;> first
          | rfl
          | simp [Doc.set, hk]
  | map value =>
    constructor
    · intro D D' h
      have hk : D key = D' key := h key (by simp [touched])
      simp only [touched, List.mem_singleton, forall_eq]
      simp only [convertEntry, convertElement]
      rw [← hk]
      cases hD : D key with
      | none => exact ⟨rfl, hk⟩
      | some v =>
        cases v <;> first
          | exact ⟨rfl, hk⟩
          | exact ⟨rfl, by simp [Doc.set]⟩
    · intro D k hk
      simp only [touched, List.mem_singleton] at hk
      simp only [convertEntry, convertElement]
      cases hD : D key with
      | none => rfl
      | some v =>
        cases v <;> first
          | rfl
          | simp [Doc.set, hk]
  | other =>
    constructor
    · intro D D' h
      have hk : D key = D' key := h key (by simp [touched])
      simp only [touched, List.mem_singleton, forall_eq]
      exact ⟨rfl, hk⟩
    · intro D k _
      rfl

theorem local_commute {S T : List String} {f g : Doc → Doc × Option BwError}
    (hf : LocalTo S f) (hg : LocalTo T g) (hdis : ∀ k ∈ S, k ∉ T) (D : Doc) :
    (g (f D).1).2 = (g D).2 ∧ (f (g D).1).2 = (f D).2 ∧ (g (f D).1).1 = (f (g D).1).1 := by
  have hdis' : ∀ k ∈ T, k ∉ S := fun k hT hS => hdis k hS hT
  have hgf := hg.1 (f D).1 D (fun k hk => hf.2 D k (hdis' k hk))
  have hfg := hf.1 (g D).1 D (fun k hk => hg.2 D k (hdis k hk))
  refine ⟨hgf.1, hfg.1, ?_⟩
  funext k
  by_cases hS : k ∈ S
  · rw [hg.2 (f D).1 k (hdis k hS), hfg.2 k hS]
  · by_cases hT : k ∈ T
    · rw [hgf.2 k hT, hf.2 (g D).1 k hS]
    · rw [hg.2 (f D).1 k hT, hf.2 D k hS, hf.2 (g D).1 k hS, hg.2 D k hT]

theorem independent_perm {l1 l2 : List (String × Conv)} (hp : l1.Perm l2)
    (h : Independent l1) : Independent l2 := by
  unfold Independent at h ⊢
  exact (hp.pairwise_iff (fun {a b} hab k hk hka => hab k hka hk)).mp h

theorem convertKeys_swap (x y : String × Conv) (l : List (String × Conv))
    (hdis : ∀ k ∈ touched y, k ∉ touched x) (D : Doc) :
    Agree (convertKeys D (y :: x :: l)) (convertKeys D (x :: y :: l)) := by
  have hc := local_commute (convertEntry_local y) (convertEntry_local x) hdis D
  simp only at hc
  obtain ⟨h1, h2, h3⟩ := hc
  rcases hy : convertEntry D y with ⟨Dy, ey⟩
  rcases hx : convertEntry D x with ⟨Dx, ex⟩
  rw [hy, hx] at h1 h2 h3
  simp only at h1 h2 h3
  rcases hxy : convertEntry Dy x with ⟨Dyx, eyx⟩
  rcases hyx : convertEntry Dx y with ⟨Dxy, exy⟩
  rw [hxy] at h1 h3
  rw [hyx] at h2 h3
  simp only at h1 h2 h3
  rw [h1, h3] at hxy
  rw [h2] at hyx
  cases ey with
  | some e1 => exact agree_of_fail (by simp [convertKeys, hy]) (by
      cases ex with
      | some e2 => simp [convertKeys, hx]
      | none => simp [convertKeys, hx, hyx])
  | none =>
    cases ex with
    | some e2 => exact agree_of_fail (by simp [convertKeys, hy, hxy]) (by simp [convertKeys, hx])
    | none =>
      have e : convertKeys D (y :: x :: l) = convertKeys D (x :: y :: l) := by
        simp [convertKeys, hy, hx, hxy, hyx]
      rw [e]
      exact Agree.refl _

theorem convertKeys_perm {l1 l2 : List (String × Conv)} (hp : l1.Perm l2) :
    Independent l1 → ∀ D : Doc, Agree (convertKeys D l1) (convertKeys D l2) := by
  induction hp with
  | nil => exact fun _ D => Agree.refl _
  | cons x _ ih =>
    intro hind D
    have hind' := (List.pairwise_cons.mp hind).2
    rcases hx : convertEntry D x with ⟨Dx, ex⟩
    cases ex with
    | some e =>
      have e1 : ∀ l, convertKeys D (x :: l) = (Dx, some e) := fun l => by
        simp [convertKeys, hx]
      rw [e1, e1]
      exact Agree.refl _
    | none =>
      have e1 : ∀ l, convertKeys D (x :: l) = convertKeys Dx l := fun l => by
        simp [convertKeys, hx]
      rw [e1, e1]
      exact ih hind' Dx
  | swap x y l =>
    intro hind D
    have h := (List.pairwise_cons.mp hind).1 x (by simp)
    exact convertKeys_swap x y l h D
  | trans h1 _ ih1 ih2 =>
    intro hind D
    exact (ih1 hind D).trans (ih2 (independent_perm h1 hind) D)

theorem orderedRun_agree (order : List (String × Conv))
    (h : ∀ entry ∈ order, ElementDet entry) :
    ∀ (D out : Doc) (e : Option BwError),
      OrderedRun D order out e → Agree (out, e) (convertKeys D order) := by
  induction order with
  | nil =>
    intro D out e hrun
    cases hrun
    exact Agree.refl _
  | cons entry rest ih =>
    intro D out e hrun
    have hdet := h entry (List.mem_cons_self _ _)
    have ih' := ih (fun en hen => h en (List.mem_cons_of_mem _ hen))
    cases hrun with
    | fail _ hel =>
      have ha := hdet D out _ hel
      refine agree_of_fail rfl ?_
      have h1 : (convertEntry D _).2.isSome = true := ha.1.symm
      rcases hc : convertEntry D _ with ⟨mid, ex⟩
      rw [hc] at h1
      cases ex with
      | none => simp at h1
      | some err => simp [convertKeys, hc]
    | @step _ mid _ key element _ _ hel hrest =>
      have ha := hdet D _ _ hel
      rcases hc : convertEntry D (key, element) with ⟨mid', ex⟩
      rw [hc] at ha
      have hex : ex = none := by
        have := ha.1
        cases ex with
        | none => rfl
        | some err => simp at this
      subst hex
      have hmid : mid = mid' := ha.2 rfl
      subst hmid
      have e1 : convertKeys D ((key, element) :: rest) = convertKeys mid rest := by
        simp only [convertKeys, hc]
      rw [e1]
      exact ih' _ out e hrest

theorem keysDet_of (keyConversion : List (String × Conv)) (hind : Independent keyConversion)
    (h : ∀ entry ∈ keyConversion, ElementDet entry) : KeysDet keyConversion := by
  intro D out e hrun
  cases hrun with
  | any hp hord =>
    have h1 := orderedRun_agree _ (fun en hen => h en (hp.mem_iff.mp hen)) D out e hord
    exact h1.trans (convertKeys_perm hp (independent_perm hp.symm hind) D)

theorem elementDet_str (key value : String) : ElementDet (key, Conv.str value) := by
  intro D out e hrun
  cases hrun
  exact Agree.refl _

theorem elementDet_map (key : String) (value : List (String × Conv)) (h : KeysDet value) :
    ElementDet (key, Conv.map value) := by
  intro D out e hrun
  cases hrun with
  | @mapMap _ _ _ inputChild child _ hk hkeys =>
    have ha := h inputChild child e hkeys
    have e1 : convertEntry D (key, Conv.map value) =
        (D.set key (Value.map (convertKeys inputChild value).1),
          (convertKeys inputChild value).2) := by
      simp [convertEntry, convertElement, hk]
    rw [e1]
    refine ⟨ha.1, fun hn => ?_⟩
    have := ha.2 hn
    simp only at this
    simp only [this]
  | mapAbsent _ hk =>
    have e1 : convertEntry D (key, Conv.map value) = (D, none) := by
      simp [convertEntry, convertElement, hk]
    rw [e1]
    exact Agree.refl _
  | mapNull _ hk =>
    have e1 : convertEntry D (key, Conv.map value) = (D, none) := by
      simp [convertEntry, convertElement, hk]
    rw [e1]
    exact Agree.refl _
  | @mapOther _ _ _ v hk hmap hnull =>
    have e1 : convertEntry D (key, Conv.map value) = (D, some BwError.convertMismatch2) := by
      cases v with
      | map m => exact absurd rfl (hmap m)
      | null => exact absurd rfl hnull
      | bool b => simp [convertEntry, convertElement, hk]
      | num b => simp [convertEntry, convertElement, hk]
      | str b => simp [convertEntry, convertElement, hk]
      | list b => simp [convertEntry, convertElement, hk]
    rw [e1]
    exact Agree.refl _

theorem eachRun_agree (value : List (List (String × Conv))) (h : ∀ R ∈ value, KeysDet R) :
    ∀ (m out : Doc) (e : Option BwError),
      EachRun m value out e → Agree (out, e) (convertKeysEach m value) := by
  induction value with
  | nil =>
    intro m out e hrun
    cases hrun
    exact Agree.refl _
  | cons R rest ih =>
    intro m out e hrun
    have hdet := h R (List.mem_cons_self _ _)
    have ih' := ih (fun R' hR' => h R' (List.mem_cons_of_mem _ hR'))
    cases hrun with
    | fail _ hkeys =>
      have ha := hdet m out _ hkeys
      refine agree_of_fail rfl ?_
      have h1 : (convertKeys m R).2.isSome = true := ha.1.symm
      rcases hc : convertKeys m R with ⟨mid, ex⟩
      rw [hc] at h1
      cases ex with
      | none => simp at h1
      | some err => simp [convertKeysEach, hc]
    | @step _ mid _ _ _ _ hkeys hrest =>
      have ha := hdet m _ _ hkeys
      rcases hc : convertKeys m R with ⟨mid', ex⟩
      rw [hc] at ha
      have hex : ex = none := by
        have := ha.1
        cases ex with
        | none => rfl
        | some err => simp at this
      subst hex
      have hmid : mid = mid' := ha.2 rfl
      subst hmid
      have e1 : convertKeysEach m (R :: rest) = convertKeysEach mid rest := by
        simp only [convertKeysEach, hc]
      rw [e1]
      exact ih' _ out e hrest

theorem itemsRun_agree (value : List (List (String × Conv))) (h : ∀ R ∈ value, KeysDet R) :
    ∀ (items out : List Value) (e : Option BwError),
      ItemsRun value items out e →
      Agree (out, e) (eachItem (fun itemAsMap => convertKeysEach itemAsMap value)
        BwError.convertMismatch1 items) := by
  intro items
  induction items with
  | nil =>
    intro out e hrun
    cases hrun
    exact Agree.refl _
  | cons item rest ih =>
    intro out e hrun
    cases hrun with
    | notMap _ _ hnot =>
      refine agree_of_fail rfl ?_
      cases item with
      | map m => exact absurd rfl (hnot m)
      | null => simp [eachItem]
      | bool b => simp [eachItem]
      | num b => simp [eachItem]
      | str b => simp [eachItem]
      | list b => simp [eachItem]
    | @fail _ m m1 err _ heach =>
      have ha := eachRun_agree value h m m1 _ heach
      refine agree_of_fail rfl ?_
      have h1 : (convertKeysEach m value).2.isSome = true := ha.1.symm
      rcases hc : convertKeysEach m value with ⟨mid, ex⟩
      rw [hc] at h1
      cases ex with
      | none => simp at h1
      | some err => simp [eachItem, hc]
    | @step _ m m1 _ rest1 _ heach hrest =>
      have ha := eachRun_agree value h m m1 _ heach
      rcases hc : convertKeysEach m value with ⟨mid', ex⟩
      rw [hc] at ha
      have hex : ex = none := by
        have := ha.1
        cases ex with
        | none => rfl
        | some err => simp at this
      subst hex
      have hmid : m1 = mid' := ha.2 rfl
      subst hmid
      have ih' := ih rest1 e hrest
      rcases hr : eachItem (fun itemAsMap => convertKeysEach itemAsMap value)
        BwError.convertMismatch1 rest with ⟨rest2, e2⟩
      rw [hr] at ih'
      have e1 : eachItem (fun itemAsMap => convertKeysEach itemAsMap value)
          BwError.convertMismatch1 (Value.map m :: rest) = (Value.map m1 :: rest2, e2) := by
        simp only [eachItem, hc, hr]
      rw [e1]
      refine ⟨ih'.1, fun hn => ?_⟩
      have := ih'.2 hn
      simp only at this
      simp only [this]

theorem elementDet_maps (key : String) (value : List (List (String × Conv)))
    (h : ∀ R ∈ value, KeysDet R) : ElementDet (key, Conv.maps value) := by
  intro D out e hrun
  cases hrun with
  | @mapsList _ _ _ inputChild items _ hk hitems =>
    have ha := itemsRun_agree value h inputChild items e hitems
    rcases hr : eachItem (fun itemAsMap => convertKeysEach itemAsMap value)
      BwError.convertMismatch1 inputChild with ⟨items2, e2⟩
    rw [hr] at ha
    have e1 : convertEntry D (key, Conv.maps value) =
        (D.set key (Value.list items2), e2) := by
      simp [convertEntry, convertElement, hk, hr]
    rw [e1]
    refine ⟨ha.1, fun hn => ?_⟩
    have := ha.2 hn
    simp only at this
    simp only [this]
  | mapsAbsent _ hk =>
    have e1 : convertEntry D (key, Conv.maps value) = (D, none) := by
      simp [convertEntry, convertElement, hk]
    rw [e1]
    exact Agree.refl _
  | mapsNull _ hk =>
    have e1 : convertEntry D (key, Conv.maps value) = (D, none) := by
      simp [convertEntry, convertElement, hk]
    rw [e1]
    exact Agree.refl _
  | @mapsOther _ _ _ v hk hlist hnull =>
    have e1 : convertEntry D (key, Conv.maps value) = (D, some BwError.convertMismatch1) := by
      cases v with
      | list xs => exact absurd rfl (hlist xs)
      | null => exact absurd rfl hnull
      | bool b => simp [convertEntry, convertElement, hk]
      | num b => simp [convertEntry, convertElement, hk]
      | str b => simp [convertEntry, convertElement, hk]
      | map b => simp [convertEntry, convertElement, hk]
    rw [e1]
    exact Agree.refl _

theorem keysDet_renames (keyConversion : List (String × Conv))
    (hind : Independent keyConversion)
    (hleaf : ∀ entry ∈ keyConversion, ∃ newKey, entry.2 = Conv.str newKey) :
    KeysDet keyConversion := by
  apply keysDet_of keyConversion hind
  intro entry hentry
  obtain ⟨newKey, hnew⟩ := hleaf entry hentry
  obtain ⟨key, element⟩ := entry
  simp only at hnew
  subst hnew
  exact elementDet_str key newKey

theorem listItemsConversion_det : KeysDet listItemsConversion := by
  unfold listItemsConversion
  apply keysDet_of _ (by simp [Independent])
  intro entry hentry
  simp only [List.mem_singleton] at hentry
  subst hentry
  apply elementDet_map
  apply keysDet_of _ (by simp [Independent])
  intro entry hentry
  simp only [List.mem_singleton] at hentry
  subst hentry
  apply elementDet_maps
  intro R hR
  simp only [List.mem_singleton] at hR
  subst hR
  apply keysDet_of _ (by simp [Independent, touched])
  intro entry hentry
  simp only [List.mem_cons, List.mem_singleton, List.not_mem_nil, or_false] at hentry
  rcases hentry with h | h | h | h | h | h | h | h <;> subst h
  · exact elementDet_str _ _
  · exact elementDet_str _ _
  · exact elementDet_map _ _ (keysDet_renames _ (by simp [Independent, touched]) (by simp))
  · exact elementDet_map _ _ (keysDet_renames _ (by simp [Independent, touched]) (by simp))
  · exact elementDet_map _ _ (keysDet_renames _ (by simp [Independent, touched]) (by simp))
  · exact elementDet_str _ _
  · exact elementDet_str _ _
  · exact elementDet_str _ _

set_option maxRecDepth 100000 in
/-- An execution on `cardEnvelope` in which the entries of the item descriptor are visited
in reverse source order. -/
theorem cardEnvelope_reversed_run :
    KeysRun cardEnvelope listItemsConversion
      (cardEnvelope.set "data" (Value.map (cardListing.set "data"
        (Value.list [Value.map (convertKeys cardItem itemConversion.reverse).1])))) none :=
  KeysRun.any (List.Perm.refl _)
    (OrderedRun.step
      (@ElementRun.mapMap cardEnvelope "data" _ cardListing _ _ rfl
        (KeysRun.any (List.Perm.refl _)
          (OrderedRun.step
            (@ElementRun.mapsList cardListing "data" _ [Value.map cardItem] _ _ rfl
              (ItemsRun.step
                (EachRun.step
                  (convertKeys_run cardItem itemConversion itemConversion.reverse
                    (List.reverse_perm _))
                  (EachRun.done _))
                (ItemsRun.done _)))
            (OrderedRun.done _))))
      (OrderedRun.done _))

/-- C15: for the conversion descriptor of `bwListItems` and every input document, any two
executions of `convertKeys`, whatever the order in which each `range` visits the entries
of a descriptor map, both succeed or both fail, and when they succeed they leave the
same document. -/
theorem listItems_conversion_order_independent (D out out' : Doc) (e e' : Option BwError)
    (h : KeysRun D listItemsConversion out e) (h' : KeysRun D listItemsConversion out' e') :
    e.isSome = e'.isSome ∧ (e = none → out = out') := by
  have a := listItemsConversion_det D out e h
  have a' := (listItemsConversion_det D out' e' h').symm
  exact a.trans a'

theorem listItems_conversion_order_independent_witness :
    KeysRun cardEnvelope listItemsConversion (convertKeys cardEnvelope listItemsConversion).1
      (convertKeys cardEnvelope listItemsConversion).2 ∧
    KeysRun cardEnvelope listItemsConversion
      (cardEnvelope.set "data" (Value.map (cardListing.set "data"
        (Value.list [Value.map (convertKeys cardItem itemConversion.reverse).1])))) none ∧
    ((convertKeys cardEnvelope listItemsConversion).2.isSome = (none : Option BwError).isSome ∧
     ((convertKeys cardEnvelope listItemsConversion).2 = none →
      (convertKeys cardEnvelope listItemsConversion).1 =
        cardEnvelope.set "data" (Value.map (cardListing.set "data"
          (Value.list [Value.map (convertKeys cardItem itemConversion.reverse).1]))))) :=
  ⟨convertKeys_run cardEnvelope listItemsConversion listItemsConversion (List.Perm.refl _),
    cardEnvelope_reversed_run,
    listItems_conversion_order_independent _ _ _ _ _
      (convertKeys_run cardEnvelope listItemsConversion listItemsConversion (List.Perm.refl _))
      cardEnvelope_reversed_run⟩

/-! ### C14: list descent, for every iteration order -/

theorem orderedRun_renames_ok (R : Descriptor)
    (hleaf : ∀ e ∈ R, ∃ newKey, e.2 = Conv.str newKey) :
    ∀ (D out : Doc) (e : Option BwError), OrderedRun D R out e → e = none := by
  induction R with
  | nil =>
    intro D out e hrun
    cases hrun
    rfl
  | cons entry rest ih =>
    intro D out e hrun
    obtain ⟨newKey, hnew⟩ := hleaf entry (List.mem_cons_self _ _)
    have ih' := ih (fun en hen => hleaf en (List.mem_cons_of_mem _ hen))
    cases hrun with
    | fail _ hel =>
      simp only at hnew
      subst hnew
      cases hel
    | step hel hrest => exact ih' _ _ _ hrest

theorem keysRun_renames_ok (R : Descriptor)
    (hleaf : ∀ e ∈ R, ∃ newKey, e.2 = Conv.str newKey) :
    ∀ (D out : Doc) (e : Option BwError), KeysRun D R out e → e = none := by
  intro D out e hrun
  cases hrun with
  | any hp hord =>
    exact orderedRun_renames_ok _ (fun en hen => hleaf en (hp.mem_iff.mp hen)) D out e hord

theorem eachRun_renames_ok (Rs : List Descriptor)
    (hleaf : ∀ R ∈ Rs, ∀ e ∈ R, ∃ newKey, e.2 = Conv.str newKey) :
    ∀ (m out : Doc) (e : Option BwError), EachRun m Rs out e → e = none := by
  induction Rs with
  | nil =>
    intro m out e hrun
    cases hrun
    rfl
  | cons R rest ih =>
    intro m out e hrun
    have ih' := ih (fun R' hR' => hleaf R' (List.mem_cons_of_mem _ hR'))
    cases hrun with
    | fail _ hkeys =>
      have := keysRun_renames_ok R (hleaf R (List.mem_cons_self _ _)) _ _ _ hkeys
      cases this
    | step hkeys hrest => exact ih' _ _ _ hrest

theorem itemsRun_maps (Rs : List Descriptor)
    (hleaf : ∀ R ∈ Rs, ∀ e ∈ R, ∃ newKey, e.2 = Conv.str newKey) :
    ∀ (ms : List Doc) (items : List Value) (e : Option BwError),
      ItemsRun Rs (ms.map Value.map) items e →
      e = none ∧ ∃ ms' : List Doc, items = ms'.map Value.map ∧
        List.Forall₂ (fun m m' => EachRun m Rs m' none) ms ms' := by
  intro ms
  induction ms with
  | nil =>
    intro items e hrun
    cases hrun
    exact ⟨rfl, [], rfl, List.Forall₂.nil⟩
  | cons m rest ih =>
    intro items e hrun
    simp only [List.map_cons] at hrun
    cases hrun with
    | notMap _ _ hnot => exact absurd rfl (hnot m)
    | fail _ heach =>
      have := eachRun_renames_ok Rs hleaf _ _ _ heach
      cases this
    | @step _ _ m1 _ rest1 _ heach hrest =>
      obtain ⟨he, ms', hms', hall⟩ := ih rest1 e hrest
      exact ⟨he, m1 :: ms', by simp [hms'], List.Forall₂.cons heach hall⟩

theorem itemsRun_not_map (Rs : List Descriptor)
    (hleaf : ∀ R ∈ Rs, ∀ e ∈ R, ∃ newKey, e.2 = Conv.str newKey) :
    ∀ (items out : List Value) (e : Option BwError),
      (∃ item ∈ items, ∀ m, item ≠ Value.map m) →
      ItemsRun Rs items out e → e = some BwError.convertMismatch1 := by
  intro items
  induction items with
  | nil =>
    intro out e h
    simp at h
  | cons item rest ih =>
    intro out e h hrun
    cases hrun with
    | notMap _ _ hnot => rfl
    | fail _ heach =>
      have := eachRun_renames_ok Rs hleaf _ _ _ heach
      cases this
    | @step _ m m1 _ rest1 _ heach hrest =>
      have hrest' : ∃ item ∈ rest, ∀ m, item ≠ Value.map m := by
        obtain ⟨it, hit, hne⟩ := h
        rcases List.mem_cons.mp hit with h1 | h1
        · exact absurd h1 (hne m)
        · exact ⟨it, h1, hne⟩
      exact ih rest1 e hrest' hrest

theorem keysRun_single {D out : Doc} {key : String} {element : Conv} {e : Option BwError}
    (h : KeysRun D [(key, element)] out e) : ElementRun D key element out e := by
  cases h with
  | any hp hord =>
    have ho := List.perm_singleton.mp hp
    subst ho
    cases hord with
    | fail _ hel => exact hel
    | step hel hrest =>
      cases hrest
      exact hel

/-- C14: for a descriptor `{K: [R1, ..., Rm]}` whose `Ri` hold only rename leaves, and
every order in which the `range` loops visit the entries of the `Ri` (chosen anew for
each item). When `D` maps `K` to a list of map-shaped items, every execution of
`convertKeys` returns no error and leaves at `K` a list of as many items in the same
order, each the result of an execution of `convertKeys` with `R1`, then `R2`, ..., then
`Rm` on the original item. When some item of the list is not map-shaped, every execution
returns the structure error. The function `convertKeys`, the execution in list order, is
one of these executions, and its result is given in closed form. -/
theorem convertKeys_list_descent (D : Doc) (K : String) (Rs : List Descriptor)
    (hleaf : ∀ R ∈ Rs, ∀ e ∈ R, ∃ newKey, e.2 = Conv.str newKey) :
    KeysRun D [(K, Conv.maps Rs)] (convertKeys D [(K, Conv.maps Rs)]).1
      (convertKeys D [(K, Conv.maps Rs)]).2 ∧
    (∀ ms : List Doc, D K = some (Value.list (ms.map Value.map)) →
      ∀ (out : Doc) (e : Option BwError), KeysRun D [(K, Conv.maps Rs)] out e →
        e = none ∧ ∃ ms' : List Doc,
          out = D.set K (Value.list (ms'.map Value.map)) ∧ ms'.length = ms.length ∧
          List.Forall₂ (fun m m' => EachRun m Rs m' none) ms ms') ∧
    (∀ items : List Value, D K = some (Value.list items) →
      (∃ item ∈ items, ∀ m, item ≠ Value.map m) →
      ∀ (out : Doc) (e : Option BwError), KeysRun D [(K, Conv.maps Rs)] out e →
        e = some BwError.convertMismatch1) ∧
    (∀ ms : List Doc, D K = some (Value.list (ms.map Value.map)) →
      convertKeys D [(K, Conv.maps Rs)] =
        (D.set K (Value.list
          (ms.map (fun m => Value.map (Rs.foldl (fun d R => (convertKeys d R).1) m)))), none)) ∧
    (∀ items : List Value, D K = some (Value.list items) →
      (∃ item ∈ items, ∀ m, item ≠ Value.map m) →
      (convertKeys D [(K, Conv.maps Rs)]).2 = some BwError.convertMismatch1) := by
  have hf : ∀ m, (convertKeysEach m Rs).2 = none := fun m => by
    rw [convertKeysEach_renames Rs hleaf m]
  refine ⟨convertKeys_run D _ _ (List.Perm.refl _), ?_, ?_, ?_, ?_⟩
  · intro ms hK out e hrun
    have hel := keysRun_single hrun
    cases hel with
    | @mapsList _ _ _ inputChild items _ hk hitems =>
      rw [hK] at hk
      injection hk with hk
      injection hk with hk
      subst hk
      obtain ⟨he, ms', hms', hall⟩ := itemsRun_maps Rs hleaf ms items e hitems
      exact ⟨he, ms', by rw [hms'], hall.length_eq.symm, hall⟩
    | mapsAbsent _ hk => rw [hK] at hk; cases hk
    | mapsNull _ hk => rw [hK] at hk; cases hk
    | mapsOther _ hk hlist _ =>
      rw [hK] at hk
      injection hk with hk
      exact absurd hk.symm (hlist _)
  · intro items hK hitem out e hrun
    have hel := keysRun_single hrun
    cases hel with
    | @mapsList _ _ _ inputChild items' _ hk hitems =>
      rw [hK] at hk
      injection hk with hk
      injection hk with hk
      subst hk
      exact itemsRun_not_map Rs hleaf items items' e hitem hitems
    | mapsAbsent _ hk => rw [hK] at hk; cases hk
    | mapsNull _ hk => rw [hK] at hk; cases hk
    | mapsOther _ hk hlist _ => rfl
  · intro ms hK
    have h := eachItem_maps (fun itemAsMap => convertKeysEach itemAsMap Rs)
      BwError.convertMismatch1 hf ms
    have hfun : (fun m => Value.map (convertKeysEach m Rs).1) =
        (fun m => Value.map (Rs.foldl (fun d R => (convertKeys d R).1) m)) := by
      funext m
      rw [convertKeysEach_renames Rs hleaf m]
    simp only [convertKeys, convertEntry, convertElement, hK, h, hfun]
  · intro items hK hitem
    have h := eachItem_not_map (fun itemAsMap => convertKeysEach itemAsMap Rs)
      BwError.convertMismatch1 hf items hitem
    rcases he : eachItem (fun itemAsMap => convertKeysEach itemAsMap Rs)
      BwError.convertMismatch1 items with ⟨items', e⟩
    rw [he] at h
    simp only at h
    subst h
    simp [convertKeys, convertEntry, convertElement, hK, he]

theorem convertKeys_list_descent_witness :
    (∀ R ∈ twoRenames, ∀ e ∈ R, ∃ newKey, e.2 = Conv.str newKey) ∧
    convertKeys docTwoItems [("data", Conv.maps twoRenames)] =
      (docTwoItems.set "data" (Value.list
        ([Doc.empty.set "folderId" (Value.str "f1"), Doc.empty.set "id" (Value.str "2")].map
          (fun m => Value.map (twoRenames.foldl (fun d R => (convertKeys d R).1) m)))), none) ∧
    KeysRun docTwoItems [("data", Conv.maps twoRenames)]
      (convertKeys docTwoItems [("data", Conv.maps twoRenames)]).1
      (convertKeys docTwoItems [("data", Conv.maps twoRenames)]).2 :=
  ⟨by simp [twoRenames],
    (convertKeys_list_descent docTwoItems "data" twoRenames (by simp [twoRenames])).2.2.2.1
      [Doc.empty.set "folderId" (Value.str "f1"), Doc.empty.set "id" (Value.str "2")] rfl,
    (convertKeys_list_descent docTwoItems "data" twoRenames (by simp [twoRenames])).1⟩

/-! ### C12: enclosure errors in the item read, for every iteration order -/

theorem encloseOrdered_note (item : Doc) (xs : List Value)
    (hc : item "card" = none) (hi : item "identity" = none) (hl : item "login" = none)
    (hs : item "secure_note" = some (Value.list xs)) :
    ∀ order : List (String × Conv),
      (∀ en ∈ order, en = ("card", Conv.str "") ∨ en = ("identity", Conv.str "") ∨
        en = ("login", Conv.str "") ∨ en = ("secure_note", Conv.str "")) →
      ∀ (out : Doc) (e : Option BwError), EncloseOrderedRun item order out e →
        out = item ∧ (("secure_note", Conv.str "") ∈ order → e = some BwError.encloseNonMap) := by
  have e1 : encloseMap item "card" = (item, none) := by simp [encloseMap, hc]
  have e2 : encloseMap item "identity" = (item, none) := by simp [encloseMap, hi]
  have e3 : encloseMap item "login" = (item, none) := by simp [encloseMap, hl]
  have e4 : encloseMap item "secure_note" = (item, some BwError.encloseNonMap) := by
    simp [encloseMap, hs]
  intro order
  induction order with
  | nil =>
    intro _ out e hrun
    cases hrun
    exact ⟨rfl, fun h => by simp at h⟩
  | cons en rest ih =>
    intro hen out e hrun
    have ih' := ih (fun en' h' => hen en' (List.mem_cons_of_mem _ h'))
    have h0 := hen en (List.mem_cons_self _ _)
    cases hrun with
    | fail _ hel =>
      rcases h0 with h | h | h | h <;> injection h with hk hv <;> subst hk hv <;>
        cases hel with
        | str _ henc =>
          first
          | (rw [e1] at henc; cases henc)
          | (rw [e2] at henc; cases henc)
          | (rw [e3] at henc; cases henc)
          | (rw [e4] at henc
             injection henc with ho he
             subst ho
             exact ⟨rfl, fun _ => he.symm⟩)
    | step hel hrest =>
      rcases h0 with h | h | h | h <;> injection h with hk hv <;> subst hk hv <;>
        cases hel with
        | str _ henc =>
          first
          | (rw [e4] at henc; cases henc)
          | (first
              | rw [e1] at henc
              | rw [e2] at henc
              | rw [e3] at henc
             injection henc with ho he
             subst ho
             obtain ⟨hout, hmem⟩ := ih' out e hrest
             refine ⟨hout, fun hm => hmem ?_⟩
             simpa using hm)

theorem encloseRun_note (item : Doc) (xs : List Value)
    (hc : item "card" = none) (hi : item "identity" = none) (hl : item "login" = none)
    (hs : item "secure_note" = some (Value.list xs)) (out : Doc) (e : Option BwError)
    (h : EncloseRun item
      [("card", Conv.str ""), ("identity", Conv.str ""), ("login", Conv.str ""),
        ("secure_note", Conv.str "")] out e) :
    out = item ∧ e = some BwError.encloseNonMap := by
  cases h with
  | any hp hord =>
    have hmem : ∀ en ∈ _, en = ("card", Conv.str "") ∨ en = ("identity", Conv.str "") ∨
        en = ("login", Conv.str "") ∨ en = ("secure_note", Conv.str "") := fun en hen => by
      have := hp.mem_iff.mp hen
      simpa using this
    obtain ⟨h1, h2⟩ := encloseOrdered_note item xs hc hi hl hs _ hmem out e hord
    exact ⟨h1, h2 (hp.mem_iff.mpr (by simp))⟩

theorem encloseRun_items_note (item : Doc) (xs : List Value)
    (hc : item "card" = none) (hi : item "identity" = none) (hl : item "login" = none)
    (hs : item "secure_note" = some (Value.list xs)) (out : Doc) (e : Option BwError)
    (h : EncloseRun (Doc.empty.set "real" (Value.list [Value.map item])) itemsEnclosure out e) :
    out.index "real" = Value.list [Value.map item] ∧ e = some BwError.encloseNonMap := by
  have hnote := encloseRun_note item xs hc hi hl hs
  have heach : ∀ (o : Doc) (e' : Option BwError),
      EncloseEachRun item
        [[("card", Conv.str ""), ("identity", Conv.str ""), ("login", Conv.str ""),
          ("secure_note", Conv.str "")]] o e' →
      o = item ∧ e' = some BwError.encloseNonMap := by
    intro o e' hr
    cases hr with
    | fail _ hkeys => exact hnote _ _ hkeys
    | step hkeys _ =>
      have := (hnote _ _ hkeys).2
      cases this
  have hel : ∀ (o : Doc) (e' : Option BwError),
      EncloseElementRun (Doc.empty.set "real" (Value.list [Value.map item])) "real"
        (Conv.maps [[("card", Conv.str ""), ("identity", Conv.str ""), ("login", Conv.str ""),
          ("secure_note", Conv.str "")]]) o e' →
      o.index "real" = Value.list [Value.map item] ∧ e' = some BwError.encloseNonMap := by
    intro o e' hr
    cases hr with
    | @mapsList _ _ _ inputChild items _ hk hitems =>
      have hk' : inputChild = [Value.map item] := by
        simp [Doc.set] at hk
        exact hk.symm
      subst hk'
      cases hitems with
      | notMap _ _ hnot => exact absurd rfl (hnot item)
      | fail _ hr1 =>
        obtain ⟨h1, h2⟩ := heach _ _ hr1
        subst h1
        exact ⟨by simp [Doc.index, Doc.set], h2⟩
      | step hr1 _ =>
        have := (heach _ _ hr1).2
        cases this
    | mapsAbsent _ hk => simp [Doc.set] at hk
    | mapsNull _ hk => simp [Doc.set] at hk
    | mapsOther _ hk hlist _ =>
      simp [Doc.set] at hk
      exact absurd hk.symm (hlist _)
  cases h with
  | any hp hord =>
    have ho := List.perm_singleton.mp hp
    subst ho
    cases hord with
    | fail _ hr => exact hel _ _ hr
    | step hr hrest =>
      have := (hel _ _ hr).2
      cases this

theorem readRun_accepted {σ : Type} (env : Env σ) (host : Host) (s : Session σ)
    (item : Doc) (xs : List Value)
    (hlist : (bwListItems env s).1 = Except.ok [Value.map item])
    (hc : item "card" = none) (hi : item "identity" = none) (hl : item "login" = none)
    (hs : item "secure_note" = some (Value.list xs))
    (haccept : host.set (Value.list [Value.map item]) = none)
    (outcome : ReadOutcome × Session σ) (h : ReadRun env host s outcome) :
    outcome.1.diags = none ∧ outcome.1.idSet = true ∧
    outcome.1.handed = some (Value.list [Value.map item]) := by
  cases h with
  | listFailed hb =>
    rw [hb] at hlist
    cases hlist
  | setFailed hb hrun hset =>
    rw [hb] at hlist
    injection hlist with hd
    subst hd
    have := (encloseRun_items_note item xs hc hi hl hs _ _ hrun).1
    rw [this, haccept] at hset
    cases hset
  | done hb hrun hset =>
    rw [hb] at hlist
    injection hlist with hd
    subst hd
    have := (encloseRun_items_note item xs hc hi hl hs _ _ hrun).1
    exact ⟨rfl, rfl, by rw [this]⟩

theorem eachItem_encloseRun (value : List (List (String × Conv)))
    (h : ∀ m, EncloseEachRun m value (encloseMapsEach m value).1 (encloseMapsEach m value).2)
    (items : List Value) :
    EncloseItemsRun value items
      (eachItem (fun itemAsMap => encloseMapsEach itemAsMap value)
        BwError.encloseMismatch1 items).1
      (eachItem (fun itemAsMap => encloseMapsEach itemAsMap value)
        BwError.encloseMismatch1 items).2 := by
  induction items with
  | nil => exact EncloseItemsRun.done value
  | cons item rest ih =>
    cases item with
    | map m =>
      have hm := h m
      rcases hc : encloseMapsEach m value with ⟨m1, e⟩
      rw [hc] at hm
      cases e with
      | some err =>
        simp only [eachItem, hc]
        exact EncloseItemsRun.fail rest hm
      | none =>
        simp only [eachItem, hc]
        exact EncloseItemsRun.step hm ih
    | null => exact EncloseItemsRun.notMap value rest (fun m h => by cases h)
    | bool b => exact EncloseItemsRun.notMap value rest (fun m h => by cases h)
    | num n => exact EncloseItemsRun.notMap value rest (fun m h => by cases h)
    | str s => exact EncloseItemsRun.notMap value rest (fun m h => by cases h)
    | list xs => exact EncloseItemsRun.notMap value rest (fun m h => by cases h)

mutual
theorem encloseElement_run (input : Doc) (key : String) :
    (element : Conv) → EncloseElementRun input key element
      (encloseElement input key element).1 (encloseElement input key element).2
  | Conv.str marker => EncloseElementRun.str marker rfl
  | Conv.maps value => by
    have h := eachItem_encloseRun value (fun m => encloseMapsEach_run m value)
    unfold encloseElement
    cases hk : input key with
    | none => exact EncloseElementRun.mapsAbsent value hk
    | some v =>
      cases v with
      | list inputChild => exact EncloseElementRun.mapsList hk (h inputChild)
      | null => exact EncloseElementRun.mapsNull value hk
      | bool b =>
        exact EncloseElementRun.mapsOther value hk (fun _ h => by cases h) (fun h => by cases h)
      | num b =>
        exact EncloseElementRun.mapsOther value hk (fun _ h => by cases h) (fun h => by cases h)
      | str b =>
        exact EncloseElementRun.mapsOther value hk (fun _ h => by cases h) (fun h => by cases h)
      | map b =>
        exact EncloseElementRun.mapsOther value hk (fun _ h => by cases h) (fun h => by cases h)
  | Conv.map value => by
    have h := fun m => EncloseRun.any (List.Perm.refl _) (encloseMaps_ordered m value)
    unfold encloseElement
    cases hk : input key with
    | none => exact EncloseElementRun.mapAbsent value hk
    | some v =>
      cases v with
      | map inputChild => exact EncloseElementRun.mapMap hk (h inputChild)
      | null => exact EncloseElementRun.mapNull value hk
      | bool b =>
        exact EncloseElementRun.mapOther value hk (fun _ h => by cases h) (fun h => by cases h)
      | num b =>
        exact EncloseElementRun.mapOther value hk (fun _ h => by cases h) (fun h => by cases h)
      | str b =>
        exact EncloseElementRun.mapOther value hk (fun _ h => by cases h) (fun h => by cases h)
      | list b =>
        exact EncloseElementRun.mapOther value hk (fun _ h => by cases h) (fun h => by cases h)
  | Conv.other => EncloseElementRun.other input key
termination_by structural element => element
theorem encloseEntry_run (input : Doc) :
    (entry : String × Conv) → EncloseElementRun input entry.1 entry.2
      (encloseEntry input entry).1 (encloseEntry input entry).2
  | (key, element) => encloseElement_run input key element
termination_by structural entry => entry
theorem encloseMaps_ordered (input : Doc) :
    (mapsToEnclose : List (String × Conv)) → EncloseOrderedRun input mapsToEnclose
      (encloseMaps input mapsToEnclose).1 (encloseMaps input mapsToEnclose).2
  | [] => EncloseOrderedRun.done input
  | entry :: rest => by
    have h1 := encloseEntry_run input entry
    have h2 := fun mid => encloseMaps_ordered mid rest
    obtain ⟨key, element⟩ := entry
    rcases hc : encloseEntry input (key, element) with ⟨mid, e⟩
    rw [hc] at h1
    cases e with
    | some err =>
      simp only [encloseMaps, hc]
      exact EncloseOrderedRun.fail rest h1
    | none =>
      simp only [encloseMaps, hc]
      exact EncloseOrderedRun.step h1 (h2 mid)
termination_by structural mapsToEnclose => mapsToEnclose
theorem encloseMapsEach_run (itemAsMap : Doc) :
    (value : List (List (String × Conv))) → EncloseEachRun itemAsMap value
      (encloseMapsEach itemAsMap value).1 (encloseMapsEach itemAsMap value).2
  | [] => EncloseEachRun.done itemAsMap
  | mapsToEncloseListItem :: rest => by
    have h1 := EncloseRun.any (List.Perm.refl _)
      (encloseMaps_ordered itemAsMap mapsToEncloseListItem)
    have h2 := fun mid => encloseMapsEach_run mid rest
    rcases hc : encloseMaps itemAsMap mapsToEncloseListItem with ⟨mid, e⟩
    rw [hc] at h1
    cases e with
    | some err =>
      simp only [encloseMapsEach, hc]
      exact EncloseEachRun.fail rest h1
    | none =>
      simp only [encloseMapsEach, hc]
      exact EncloseEachRun.step h1 (h2 mid)
termination_by structural value => value
end

/-- The function `encloseMaps` is one of the possible executions. -/
theorem encloseMaps_run (input : Doc) (mapsToEnclose : List (String × Conv)) :
    EncloseRun input mapsToEnclose
      (encloseMaps input mapsToEnclose).1 (encloseMaps input mapsToEnclose).2 :=
  EncloseRun.any (List.Perm.refl _) (encloseMaps_ordered input mapsToEnclose)

/-- The function `dataSourceItemRead` is one of the possible executions. -/
theorem dataSourceItemRead_run {σ : Type} (env : Env σ) (host : Host) (s : Session σ) :
    ReadRun env host s (dataSourceItemRead env host s) := by
  unfold dataSourceItemRead
  rcases hb : bwListItems env s with ⟨r, s1⟩
  cases r with
  | error err => exact ReadRun.listFailed hb
  | ok data =>
    have hrun := encloseMaps_run (Doc.empty.set "real" (Value.list data)) itemsEnclosure
    simp only
    cases hs : host.set
        ((encloseMaps (Doc.empty.set "real" (Value.list data)) itemsEnclosure).1.index
          "real") with
    | some err => exact ReadRun.setFailed hb hrun hs
    | none => exact ReadRun.done hb hrun hs

/-- In every execution of `dataSourceItemRead` the diagnostics are the error of
`bwListItems` or the error of the host's `d.Set`, never the error of `encloseMaps`. -/
theorem readRun_diags {σ : Type} (env : Env σ) (host : Host) (s : Session σ)
    (outcome : ReadOutcome × Session σ) (h : ReadRun env host s outcome) :
    (∃ err, (bwListItems env s).1 = Except.error err ∧ outcome.1.diags = some err) ∨
    (∃ value, outcome.1.handed = some value ∧
      outcome.1.diags = (host.set value).map BwError.setItems) := by
  cases h with
  | listFailed hb => exact Or.inl ⟨_, by rw [hb], rfl⟩
  | setFailed hb hrun hset => exact Or.inr ⟨_, rfl, by rw [hset]; rfl⟩
  | done hb hrun hset => exact Or.inr ⟨_, rfl, by rw [hset]; rfl⟩

set_option maxRecDepth 100000 in
/-- C12 (failing input): `bwListItems` returns one item whose `secure_note` is a list, a
non-map, non-nil value at an enclosure target. Every execution of `encloseMaps`, in every
iteration order, returns the non-map error. A host that checks the schema's list blocks
accepts the item, and with every host that accepts it every execution of
`dataSourceItemRead` returns no diagnostics, sets the id, and has handed the item to
the host. -/
theorem dataSourceItemRead_ignores_enclose_error :
    (bwListItems noteItemsEnv ⟨exampleClient "https://vault.example", (), []⟩).1 =
      Except.ok [Value.map listedNote] ∧
    listedNote "secure_note" = some (Value.list []) ∧
    (∀ (out : Doc) (e : Option BwError),
      EncloseRun (Doc.empty.set "real" (Value.list [Value.map listedNote])) itemsEnclosure
        out e → e = some BwError.encloseNonMap) ∧
    schemaHost.set (Value.list [Value.map listedNote]) = none ∧
    (∀ host : Host, host.set (Value.list [Value.map listedNote]) = none →
      ∀ outcome : ReadOutcome × Session Unit,
        ReadRun noteItemsEnv host ⟨exampleClient "https://vault.example", (), []⟩ outcome →
        outcome.1.diags = none ∧ outcome.1.idSet = true ∧
        outcome.1.handed = some (Value.list [Value.map listedNote])) ∧
    ReadRun noteItemsEnv schemaHost ⟨exampleClient "https://vault.example", (), []⟩
      (dataSourceItemRead noteItemsEnv schemaHost
        ⟨exampleClient "https://vault.example", (), []⟩) ∧
    (dataSourceItemRead noteItemsEnv schemaHost
      ⟨exampleClient "https://vault.example", (), []⟩).1.diags = none :=
  ⟨rfl, rfl,
    fun out e h => (encloseRun_items_note listedNote [] rfl rfl rfl rfl out e h).2,
    rfl,
    fun host haccept outcome h =>
      readRun_accepted noteItemsEnv host _ listedNote [] rfl rfl rfl rfl rfl haccept outcome h,
    dataSourceItemRead_run _ _ _,
    rfl⟩

end Bitwarden
